import Mathlib

/-!
Verification development for the rainflow cycle-counting core (`src/rainflow.c`).

The C core is shallowly embedded: sample values (C `double`, i.e. `RFC_value_type`)
are modelled as rationals `ℚ` (all comparisons and additions performed by the core
are exact on the test data and on any rational input; the single transcendental
computation, the Wöhler damage formula, is modelled by its exact closed form and
related to the C source's logarithmic form by a theorem over `ℝ`).

The residue buffer `rfc_ctx_s.residue` together with its trailing interim slot is
modelled as a single list `Ctx.residue`: the C code keeps the confirmed turning
points at indices `0 .. residue_cnt-1` and, in state `BUSY_INTERIM`, the interim
point at index `residue_cnt`.  Here the list holds exactly those occupied slots,
so `residue_cnt` is the list length, minus one in state `BUSY_INTERIM`
(see `Ctx.residue_cnt`).  Appends `residue[++residue_cnt] = *pt` become list
appends, the removal shift of `RFC_residue_remove_item` and of the 4-point
detector (which also moves the interim slot) becomes `take ++ drop`.

`rainflow.h` is not part of `src/`; the enumerations and constants it defines
(state values, error codes, flag bits, cycle increments, the embedded residue
capacity) are modelled from the spec, each marked `Modelled from the spec:`.
-/

set_option linter.unusedVariables false

namespace Rainflow

/-- A turning point / data tuple, mirroring `rfc_value_tuple_s`:
`value` is the sample value, `cls` the 0-based class index assigned by
`QUANTIZE`, `pos` the 1-based position in the input stream. -/
structure Tp where
  value : ℚ
  cls : ℕ
  pos : ℕ
deriving DecidableEq, Repr

instance : Inhabited Tp := ⟨⟨0, 0, 0⟩⟩

/-- Modelled from the spec: the lifecycle state enumeration of `rainflow.h`
(absent from `src/`).  The spec gives the order
`INIT0 → INIT → BUSY → BUSY_INTERIM → FINALIZE → FINISHED` plus terminal
`ERROR`; the C code compares states numerically in this order, and failed
calls "short-circuit" afterwards, so `ERROR` sorts after `FINISHED`. -/
inductive RFCState where
  | INIT0
  | INIT
  | BUSY
  | BUSY_INTERIM
  | FINALIZE
  | FINISHED
  | ERROR
deriving DecidableEq, Repr

/-- Numeric value of a state, used for the C source's `<` / `>=` state tests. -/
def RFCState.idx : RFCState → ℕ
  | .INIT0 => 0
  | .INIT => 1
  | .BUSY => 2
  | .BUSY_INTERIM => 3
  | .FINALIZE => 4
  | .FINISHED => 5
  | .ERROR => 6

/-- Modelled from the spec: the error code enumeration of `rainflow.h`
(absent from `src/`); the spec's taxonomy is INVARG / STATE / OVERFLOW /
ALLOC, with a zero "no error" value on a fresh context. -/
inductive RFCError where
  | NOERROR
  | INVARG
  | STATE
  | OVERFLOW
  | ALLOC
deriving DecidableEq, Repr

/-- Modelled from the spec: the flags bitmask of `rainflow.h` (absent from
`src/`) reduced to its two documented bits `COUNT_RFM` and `COUNT_DAMAGE`. -/
structure RFCFlags where
  count_rfm : Bool
  count_damage : Bool
deriving DecidableEq, Repr

/-- Modelled from the spec: `DEFAULT = COUNT_RFM | COUNT_DAMAGE`.  The C
source maps the sentinel value `RFC_FLAGS_DEFAULT` to exactly this pair of
bits at the top of `RFC_init`, so the sentinel and its expansion are
behaviourally identical and are identified here. -/
def RFC_FLAGS_DEFAULT : RFCFlags := ⟨true, true⟩

/-- Modelled from the spec: residual method enumeration; only `NONE` and
`IGNORE` are in scope ("synonyms in this core"), `OTHER` stands for any of
the reserved future values, which `RFC_finalize` rejects. -/
inductive ResidualMethod where
  | NONE
  | IGNORE
  | OTHER
deriving DecidableEq, Repr

/-- Modelled from the spec: `RFC_FULL_CYCLE_INCREMENT` from `rainflow.h`
(absent from `src/`).  The spec fixes no value, only that all matrix counts
are uniform multiples of `full_inc` ("dividing by `full_inc` yields cycle
counts"); the model uses 1.  `half_inc` is scaffolding that the
`NONE`/`IGNORE` path never uses (`curr_inc` always equals `full_inc`), so it
is not modelled. -/
def RFC_FULL_CYCLE_INCREMENT : ℕ := 1

/-- Modelled from the spec: the capacity of the small embedded residue array
`rfc_ctx_s.internal.residue` in `rainflow.h` (absent from `src/`).  The spec
says the residue capacity has "a small fixed minimum (≥3)" and the comment in
`RFC_init` says "At least 3 elements are needed (two to define a slope and
one as interim point)". -/
def RFC_EMBEDDED_RESIDUE_CAP : ℕ := 3

/-- The rainflow context, mirroring the fields of `rfc_ctx_s` that the core
in `src/rainflow.c` reads or writes.  `residue` holds the occupied residue
slots including, in state `BUSY_INTERIM`, the trailing interim point. -/
structure Ctx where
  state : RFCState := .INIT0
  error : RFCError := .NOERROR
  class_count : ℕ := 0
  class_width : ℚ := 0
  class_offset : ℚ := 0
  hysteresis : ℚ := 0
  wl_sd : ℚ := 0
  wl_nd : ℚ := 0
  wl_k : ℤ := 0
  full_inc : ℕ := 0
  curr_inc : ℕ := 0
  residue : List Tp := []
  residue_cap : ℕ := 0
  rfm : Option (List ℕ) := none
  internal_flags : RFCFlags := ⟨false, false⟩
  internal_slope : ℤ := 0
  extrema_min : Tp := default
  extrema_max : Tp := default
  internal_pos : ℕ := 0
  pseudo_damage : ℚ := 0
deriving DecidableEq, Repr

/-- A zero-initialized context, as the C API requires before `RFC_init`
(`rfc_ctx_s ctx = { sizeof(ctx) }` zero-initializes every other member). -/
def Ctx.initial : Ctx := {}

/-- `residue_cnt`: number of confirmed turning points.  In state
`BUSY_INTERIM` the last element of `Ctx.residue` is the interim slot
`residue[residue_cnt]`, hence not counted. -/
def Ctx.residue_cnt (c : Ctx) : ℕ :=
  if c.state = .BUSY_INTERIM then c.residue.length - 1 else c.residue.length

/-- The sign convention of `value_delta`: `-1` for a negative difference,
`+1` otherwise (`delta < 0.0 ? -1 : 1`, so a zero difference gets `+1`). -/
def sgn (q : ℚ) : ℤ := if q < 0 then -1 else 1

/-- `value_delta`: absolute difference of two values (the sign output is
modelled separately by `sgn`). -/
def value_delta (from_val to_val : ℚ) : ℚ := |to_val - from_val|

/-- The `QUANTIZE` macro: `(unsigned)((v - class_offset) / class_width)`.
For values at or above `class_offset` (the caller contract when
`class_count > 0`) the C double-to-unsigned cast truncates toward zero,
which agrees with the floor used here; below `class_offset` the C cast is
undefined behaviour and the model returns 0. -/
def QUANTIZE (c : Ctx) (v : ℚ) : ℕ := (⌊(v - c.class_offset) / c.class_width⌋).toNat

/-- `RFC_wl_init`: store the Wöhler parameters; the slope is stored as
`-|k|`.  (In the C source `k` is a double, but the core only ever calls this
with the default `-5`, and the damage formula uses `|k|` as an exponent, so
the slope is modelled as an integer.) -/
def RFC_wl_init (c : Ctx) (sd nd : ℚ) (k : ℤ) : Ctx :=
  {c with wl_sd := sd, wl_nd := nd, wl_k := -|k|}

/-- `RFC_damage_calc_amplitude`: pseudo-damage of one full cycle of
amplitude `Sa`.  The C source computes `exp(|k|·(log Sa − log SD) − log ND)`
in doubles; the model uses the exact closed form `(Sa/SD)^|k| / ND`, which
theorem `damage_log_form_eq_pow_form` proves equal (over `ℝ`, for positive
arguments) to the logarithmic form. -/
def RFC_damage_calc_amplitude (c : Ctx) (Sa : ℚ) : ℚ :=
  if 0 ≤ Sa then (Sa / c.wl_sd) ^ c.wl_k.natAbs / c.wl_nd else 0

/-- `RFC_damage_calc`: pseudo-damage for a closed cycle between classes:
`range = class_width · |class_to − class_from|`, amplitude `range/2`;
zero for a diagonal cycle. -/
def RFC_damage_calc (c : Ctx) (class_from class_to : ℕ) : ℚ :=
  if class_from ≠ class_to then
    RFC_damage_calc_amplitude c
      (c.class_width * ((((class_to : ℤ) - (class_from : ℤ)).natAbs : ℚ)) / 2)
  else 0

/-- `RFC_cycle_process_counts`: quantize and clamp both endpoints; off the
diagonal, accumulate pseudo-damage (when `COUNT_DAMAGE`) and increment the
rainflow matrix entry by `curr_inc` (when the matrix exists and
`COUNT_RFM`); on the diagonal, do nothing.  (The C `next` parameter is
unused by the function body and is omitted.) -/
def RFC_cycle_process_counts (c : Ctx) (tp_from tp_to : Tp) (flags : RFCFlags) : Ctx :=
  let class_from0 := QUANTIZE c tp_from.value
  let class_from := if c.class_count ≤ class_from0 then c.class_count - 1 else class_from0
  let class_to0 := QUANTIZE c tp_to.value
  let class_to := if c.class_count ≤ class_to0 then c.class_count - 1 else class_to0
  if class_from ≠ class_to then
    let c1 :=
      if flags.count_damage then
        {c with pseudo_damage := c.pseudo_damage +
          RFC_damage_calc c class_from class_to / (c.full_inc : ℚ) * (c.curr_inc : ℚ)}
      else c
    match c.rfm with
    | some m =>
        if flags.count_rfm then
          let idx := c.class_count * class_from + class_to
          {c1 with rfm := some (m.set idx (m.getD idx 0 + c.curr_inc))}
        else c1
    | none => c1
  else c

theorem RFC_cycle_process_counts_residue (c : Ctx) (tp_from tp_to : Tp) (flags : RFCFlags) :
    (RFC_cycle_process_counts c tp_from tp_to flags).residue = c.residue := by
  rcases hd : flags.count_damage <;> rcases hr : flags.count_rfm <;>
    rcases hm : c.rfm with _ | m <;>
    simp [RFC_cycle_process_counts, hd, hr, hm] <;> (repeat' split) <;> rfl

theorem RFC_cycle_process_counts_state (c : Ctx) (tp_from tp_to : Tp) (flags : RFCFlags) :
    (RFC_cycle_process_counts c tp_from tp_to flags).state = c.state := by
  rcases hd : flags.count_damage <;> rcases hr : flags.count_rfm <;>
    rcases hm : c.rfm with _ | m <;>
    simp [RFC_cycle_process_counts, hd, hr, hm] <;> (repeat' split) <;> rfl

/-- `nth l i`: total random access into the residue, returning the default
turning point out of range (the C code only indexes occupied slots; every
theorem using `nth` carries the corresponding bounds). -/
def nth : List Tp → ℕ → Tp
  | [], _ => default
  | t :: _, 0 => t
  | _ :: ts, n+1 => nth ts n

theorem Ctx.residue_cnt_le_length (c : Ctx) : c.residue_cnt ≤ c.residue.length := by
  unfold Ctx.residue_cnt
  split <;> omega

/-- `RFC_cycle_find_4ptm`: the 4-point counting core.  While at least four
confirmed points exist, take the last four values `A B C D`, sort the inner
and the outer pair, and if the inner range is contained in the outer range
(`A ≤ B && C ≤ D` after the swaps) count the cycle `from = residue[idx+1]`,
`to = residue[idx+2]` and remove those two points (the shift
`residue[idx+1] = residue[idx+3]` and, in `BUSY_INTERIM`,
`residue[idx+2] = residue[idx+4]`, is `take (idx+1) ++ drop (idx+3)` on the
occupied-slot list); otherwise stop. -/
def RFC_cycle_find_4ptm (c : Ctx) (flags : RFCFlags) : Ctx :=
  if h4 : 4 ≤ c.residue_cnt then
    let idx := c.residue_cnt - 4
    let A := (nth c.residue idx).value
    let B := (nth c.residue (idx+1)).value
    let C := (nth c.residue (idx+2)).value
    let D := (nth c.residue (idx+3)).value
    let BC := if C < B then (C, B) else (B, C)
    let AD := if D < A then (D, A) else (A, D)
    if AD.1 ≤ BC.1 ∧ BC.2 ≤ AD.2 then
      let c1 := RFC_cycle_process_counts c (nth c.residue (idx+1)) (nth c.residue (idx+2)) flags
      let c2 := {c1 with residue := c1.residue.take (idx+1) ++ c1.residue.drop (idx+3)}
      RFC_cycle_find_4ptm c2 flags
    else c
  else c
termination_by c.residue.length
decreasing_by
  have hle := c.residue_cnt_le_length
  simp [RFC_cycle_process_counts_residue, List.length_append, List.length_take,
    List.length_drop]
  omega

/-- `RFC_feed_filter_pt`: hysteresis + peak-valley filter.  Returns the
updated context and whether a new turning point was emitted (the C function
returns a pointer into the residue, or NULL). -/
def RFC_feed_filter_pt (c : Ctx) (pt : Tp) : Ctx × Bool :=
  if c.state.idx < RFCState.BUSY_INTERIM.idx then
    -- still searching the first turning point(s)
    if c.state = .INIT then
      ({c with extrema_min := pt, extrema_max := pt, state := .BUSY}, false)
    else
      -- RFC_STATE_BUSY
      let fc :=
        if pt.value < c.extrema_min.value then ((1 : ℤ), {c with extrema_min := pt})
        else if c.extrema_max.value < pt.value then ((0 : ℤ), {c with extrema_max := pt})
        else ((-1 : ℤ), c)
      let is_falling_slope := fc.1
      let c1 := fc.2
      let delta := value_delta c1.extrema_min.value c1.extrema_max.value
      if 0 ≤ is_falling_slope ∧ c1.hysteresis < delta then
        -- 1st point: internal.extrema[is_falling_slope], 2nd (interim): *pt
        let first_tp := if is_falling_slope = 1 then c1.extrema_max else c1.extrema_min
        ({c1 with internal_slope := if is_falling_slope = 1 then -1 else 1,
                  state := .BUSY_INTERIM,
                  residue := c1.residue ++ [first_tp, pt]}, true)
      else (c1, false)
  else
    -- RFC_STATE_BUSY_INTERIM: check against the interim point residue[residue_cnt]
    let interim := nth c.residue (c.residue.length - 1)
    let slope := sgn (pt.value - interim.value)
    let delta := value_delta interim.value pt.value
    if slope = c.internal_slope then
      -- scenario (1): continuous slope, adjust the interim point
      if interim.value ≠ pt.value then
        ({c with residue := c.residue.take (c.residue.length - 1) ++ [pt]}, false)
      else (c, false)
    else
      if c.hysteresis < delta then
        -- scenario (2): the interim point becomes a turning point, pt the new interim
        ({c with internal_slope := slope, residue := c.residue ++ [pt]}, true)
      else
        -- scenario (3): still inside the hysteresis band
        (c, false)

/-- `RFC_residue_remove_item`: remove `cnt` points starting at `index`,
shifting the suffix (including the interim slot) leftward. -/
def RFC_residue_remove_item (c : Ctx) (index cnt : ℕ) : Ctx :=
  {c with residue := c.residue.take index ++ c.residue.drop (index + cnt)}

/-- `RFC_feed_once`: filter one data point; on an emitted turning point run
the 4-point detector (`class_count > 0`) or drop the oldest residue point
(`class_count = 0`). -/
def RFC_feed_once (c : Ctx) (pt : Tp) (flags : RFCFlags) : Ctx :=
  let fc := RFC_feed_filter_pt c pt
  if fc.2 then
    if fc.1.class_count ≠ 0 then RFC_cycle_find_4ptm fc.1 flags
    else if 1 < fc.1.residue_cnt then RFC_residue_remove_item fc.1 0 1 else fc.1
  else fc.1

/-- One iteration of the `RFC_feed` loop: assign class and 1-based global
position to the sample, then `RFC_feed_once` with the context's flags. -/
def RFC_feed_step (c : Ctx) (v : ℚ) : Ctx :=
  RFC_feed_once {c with internal_pos := c.internal_pos + 1}
    ⟨v, QUANTIZE c v, c.internal_pos + 1⟩ c.internal_flags

/-- `RFC_feed`: reject contexts outside the feeding states, otherwise
process all samples.  (`RFC_feed_once` always returns true, so the C loop
never stops early; the unrepresentable NULL-pointer check on `data` is not
modelled.) -/
def RFC_feed (c : Ctx) (data : List ℚ) : Bool × Ctx :=
  if c.state.idx < RFCState.INIT.idx ∨ RFCState.FINISHED.idx ≤ c.state.idx then (false, c)
  else (true, data.foldl RFC_feed_step c)

/-- `RFC_feed_finalize`: promote the interim point to a confirmed turning
point (`residue_cnt++`, i.e. leave the slot list unchanged and move to state
`BUSY`), rerun the 4-point detector if a point was promoted, then move to
state `FINALIZE`. -/
def RFC_feed_finalize (c : Ctx) : Ctx :=
  if c.state.idx < RFCState.FINALIZE.idx then
    let fc := if c.state = .BUSY_INTERIM then ({c with state := RFCState.BUSY}, true)
              else (c, false)
    let c2 := if fc.2 then RFC_cycle_find_4ptm fc.1 fc.1.internal_flags else fc.1
    {c2 with state := .FINALIZE}
  else c

/-- `RFC_finalize_res_ignore`: finalize pending counts, ignore the residue. -/
def RFC_finalize_res_ignore (c : Ctx) (flags : RFCFlags) : Ctx :=
  RFC_feed_finalize c

/-- `RFC_finalize`: dispatch on the residual method (`NONE` and `IGNORE`
both ignore the residue; anything else sets `INVARG` and fails), clear
`residue_cnt` when `class_count = 0`, and set the final state (`FINISHED` on
success, `ERROR` on failure). -/
def RFC_finalize (c : Ctx) (residual_method : ResidualMethod) : Bool × Ctx :=
  if c.state.idx < RFCState.INIT.idx ∨ RFCState.FINISHED.idx ≤ c.state.idx then (false, c)
  else
    let oc :=
      match residual_method with
      | .NONE => (true, RFC_finalize_res_ignore c c.internal_flags)
      | .IGNORE => (true, RFC_finalize_res_ignore c c.internal_flags)
      | .OTHER => (false, {c with error := .INVARG})
    let c2 := if oc.2.class_count = 0 then {oc.2 with residue := []} else oc.2
    (oc.1, {c2 with state := if oc.1 then .FINISHED else .ERROR})

/-- `RFC_init`: validate the class parameters (`class_count ≤ 512`,
`class_width > 0` when `class_count > 0`; note the C source checks nothing
else), store them, install the default Wöhler parameters, size the residue
(`2·class_count`, at least the embedded capacity), allocate the matrix when
`class_count > 0` and `COUNT_RFM` is set (allocation cannot fail in the
model), and enter state `INIT`.  Flags and increments are stored before
validation, exactly as in the C source. -/
def RFC_init (c : Ctx) (class_count : ℕ) (class_width class_offset hysteresis : ℚ)
    (flags : RFCFlags) : Bool × Ctx :=
  if c.state ≠ .INIT0 then (false, c)
  else
    let c := {c with internal_flags := flags,
                     full_inc := RFC_FULL_CYCLE_INCREMENT,
                     curr_inc := RFC_FULL_CYCLE_INCREMENT}
    if class_count ≠ 0 ∧ (512 < class_count ∨ class_width ≤ 0) then
      (false, {c with error := .INVARG})
    else
      let c := {c with class_count := class_count, class_width := class_width,
                       class_offset := class_offset, hysteresis := hysteresis}
      let c := RFC_wl_init c 1000 10000000 (-5)
      let cap := 2 * class_count
      let c := {c with residue := [],
                       residue_cap := if cap ≤ RFC_EMBEDDED_RESIDUE_CAP
                                      then RFC_EMBEDDED_RESIDUE_CAP else cap}
      let c := if class_count ≠ 0 ∧ flags.count_rfm then
                 {c with rfm := some (List.replicate (class_count * class_count) 0)}
               else c
      (true, {c with pseudo_damage := 0, internal_slope := 0,
                     extrema_min := default, extrema_max := default, state := .INIT})

/-! ### List access lemmas for `nth` -/

theorem nth_nil (i : ℕ) : nth [] i = default := rfl

theorem nth_append_lt (l l' : List Tp) (i : ℕ) (h : i < l.length) :
    nth (l ++ l') i = nth l i := by
  induction l generalizing i with
  | nil => simp at h
  | cons t ts ih =>
      cases i with
      | zero => rfl
      | succ j => exact ih j (by simpa using h)

theorem nth_append_ge (l l' : List Tp) (i : ℕ) (h : l.length ≤ i) :
    nth (l ++ l') i = nth l' (i - l.length) := by
  induction l generalizing i with
  | nil => simp [nth]
  | cons t ts ih =>
      cases i with
      | zero => simp at h
      | succ j => simpa [nth] using ih j (by simpa using h)

theorem nth_take (l : List Tp) (k i : ℕ) (h : i < k) :
    nth (l.take k) i = nth l i := by
  induction l generalizing k i with
  | nil => simp [nth]
  | cons t ts ih =>
      cases k with
      | zero => omega
      | succ k' =>
          cases i with
          | zero => rfl
          | succ j => exact ih k' j (by omega)

theorem nth_drop (l : List Tp) (k i : ℕ) : nth (l.drop k) i = nth l (k + i) := by
  induction l generalizing k with
  | nil => simp [nth]
  | cons t ts ih =>
      cases k with
      | zero => simp
      | succ k' => simpa [nth, Nat.succ_add] using ih k'

theorem nth_singleton (t : Tp) (i : ℕ) : nth [t] i = if i = 0 then t else default := by
  cases i <;> rfl

/-- Access into the residue after the 4-point removal `take (k+1) ++ drop (k+3)`:
indices up to `k` are unchanged, larger indices shift by two. -/
theorem nth_remove2 (l : List Tp) (k i : ℕ) (hk : k + 3 ≤ l.length) :
    nth (l.take (k+1) ++ l.drop (k+3)) i =
      if i ≤ k then nth l i else nth l (i + 2) := by
  have hlen : (l.take (k+1)).length = k + 1 := by
    simp [List.length_take]; omega
  by_cases h : i ≤ k
  · rw [if_pos h, nth_append_lt _ _ _ (by omega), nth_take _ _ _ (by omega)]
  · rw [if_neg h, nth_append_ge _ _ _ (by omega), nth_drop, hlen]
    congr 1
    omega

theorem length_remove2 (l : List Tp) (k : ℕ) (hk : k + 3 ≤ l.length) :
    (l.take (k+1) ++ l.drop (k+3)).length = l.length - 2 := by
  simp [List.length_take, List.length_drop]
  omega

/-- Access into the residue after the interim-replacement
`take (len-1) ++ [x]` of filter scenario (1). -/
theorem nth_replace_last (l : List Tp) (x : Tp) (i : ℕ) (hl : l ≠ []) :
    nth (l.take (l.length - 1) ++ [x]) i =
      if i < l.length - 1 then nth l i else if i = l.length - 1 then x else default := by
  have hlen : (l.take (l.length - 1)).length = l.length - 1 := by
    simp [List.length_take]
  have hpos : 0 < l.length := List.length_pos.mpr hl
  by_cases h : i < l.length - 1
  · rw [if_pos h, nth_append_lt _ _ _ (by omega), nth_take _ _ _ (by omega)]
  · rw [if_neg h, nth_append_ge _ _ _ (by omega), hlen, nth_singleton]
    by_cases h2 : i = l.length - 1
    · simp [h2]
    · rw [if_neg h2, if_neg (by omega)]

theorem length_replace_last (l : List Tp) (x : Tp) (hl : l ≠ []) :
    (l.take (l.length - 1) ++ [x]).length = l.length := by
  have hpos : 0 < l.length := List.length_pos.mpr hl
  simp [List.length_take]
  omega

theorem nth_snoc (l : List Tp) (x : Tp) (i : ℕ) :
    nth (l ++ [x]) i = if i < l.length then nth l i else if i = l.length then x else default := by
  by_cases h : i < l.length
  · rw [if_pos h, nth_append_lt _ _ _ h]
  · rw [if_neg h, nth_append_ge _ _ _ (by omega), nth_singleton]
    by_cases h2 : i = l.length
    · simp [h2]
    · rw [if_neg h2, if_neg (by omega)]

/-! ### The residue ordering invariants of the spec (claim C4) -/

/-- Adjacent deltas of the point list all exceed the hysteresis. -/
def altOk (h : ℚ) (l : List Tp) : Prop :=
  ∀ i < l.length - 1, h < |(nth l (i+1)).value - (nth l i).value|

/-- Adjacent deltas of the point list strictly alternate in direction. -/
def altDir (l : List Tp) : Prop :=
  ∀ i < l.length - 2,
    sgn ((nth l (i+2)).value - (nth l (i+1)).value) =
      - sgn ((nth l (i+1)).value - (nth l i).value)

/-- The stream positions of the point list are strictly increasing. -/
def posIncr (l : List Tp) : Prop :=
  ∀ i < l.length - 1, (nth l i).pos < (nth l (i+1)).pos

instance (h : ℚ) (l : List Tp) : Decidable (altOk h l) := by
  unfold altOk; infer_instance

instance (l : List Tp) : Decidable (altDir l) := by
  unfold altDir; infer_instance

instance (l : List Tp) : Decidable (posIncr l) := by
  unfold posIncr; infer_instance

/-! ### Sign lemmas -/

theorem sgn_eq_one_iff (q : ℚ) : sgn q = 1 ↔ 0 ≤ q := by
  unfold sgn
  by_cases h : q < 0
  · rw [if_pos h]
    exact ⟨fun hh => absurd hh (by decide), fun hh => absurd h (not_lt.mpr hh)⟩
  · rw [if_neg h]
    exact ⟨fun _ => not_lt.mp h, fun _ => rfl⟩

theorem sgn_eq_neg_one_iff (q : ℚ) : sgn q = -1 ↔ q < 0 := by
  unfold sgn
  by_cases h : q < 0
  · rw [if_pos h]
    exact ⟨fun _ => h, fun _ => rfl⟩
  · rw [if_neg h]
    exact ⟨fun hh => absurd hh (by decide), fun hh => absurd hh h⟩

theorem sgn_cases (q : ℚ) : sgn q = 1 ∨ sgn q = -1 := by
  unfold sgn; split <;> simp

/-- The two closed-cycle preconditions of the 4-point rule, in arithmetic
form: if `A B C D` are four consecutive alternating residue values whose
inner range `[min B C, max B C]` is contained in the outer range
`[min A D, max A D]`, then the surviving pair `(A, D)` again exceeds the
hysteresis, continues the direction of `(A, B)`, and `(C, D)` and `(A, D)`
point the same way. -/
theorem fourpt_closure_step (h A B C D : ℚ) (hh : 0 ≤ h)
    (h1 : h < |B - A|) (h2 : h < |C - B|) (h3 : h < |D - C|)
    (d2 : sgn (D - C) = - sgn (C - B)) (d1 : sgn (C - B) = - sgn (B - A))
    (hcl : min A D ≤ min B C ∧ max B C ≤ max A D) :
    h < |D - A| ∧ sgn (D - A) = sgn (B - A) ∧ sgn (D - C) = sgn (D - A) := by
  rcases sgn_cases (B - A) with hba | hba
  · -- rising A → B
    have hba' : 0 ≤ B - A := (sgn_eq_one_iff _).mp hba
    have hcb : C - B < 0 := by
      have : sgn (C - B) = -1 := by rw [d1, hba]
      exact (sgn_eq_neg_one_iff _).mp this
    have hdc : 0 ≤ D - C := by
      have : sgn (D - C) = 1 := by rw [d2, d1, hba]; ring
      exact (sgn_eq_one_iff _).mp this
    have hBA : h < B - A := by rw [abs_of_nonneg hba'] at h1; exact h1
    have hmax : max B C = B := max_eq_left (by linarith)
    have hD : B ≤ max A D := by rw [hmax] at hcl; exact hcl.2
    have hAD : max A D = D := by
      rcases max_cases A D with ⟨he, _⟩ | ⟨he, _⟩
      · exfalso; rw [he] at hD; linarith
      · exact he
    have hBD : B ≤ D := by rw [hAD] at hD; exact hD
    have hDA : h < D - A := by linarith
    have hsa : sgn (D - A) = 1 := (sgn_eq_one_iff _).mpr (by linarith)
    refine ⟨by rw [abs_of_nonneg (by linarith)]; exact hDA, ?_, ?_⟩
    · rw [hba, hsa]
    · rw [d2, d1, hba, hsa]; decide
  · -- falling A → B
    have hba' : B - A < 0 := (sgn_eq_neg_one_iff _).mp hba
    have hcb : 0 ≤ C - B := by
      have : sgn (C - B) = 1 := by rw [d1, hba]; ring
      exact (sgn_eq_one_iff _).mp this
    have hdc : D - C < 0 := by
      have : sgn (D - C) = -1 := by rw [d2, d1, hba]; ring
      exact (sgn_eq_neg_one_iff _).mp this
    have hBA : h < A - B := by rw [abs_of_neg hba'] at h1; linarith
    have hmin : min B C = B := min_eq_left (by linarith)
    have hD : min A D ≤ B := by rw [hmin] at hcl; exact hcl.1
    have hAD : min A D = D := by
      rcases min_cases A D with ⟨he, _⟩ | ⟨he, _⟩
      · exfalso; rw [he] at hD; linarith
      · exact he
    have hBD : D ≤ B := by rw [hAD] at hD; exact hD
    have hDA : h < A - D := by linarith
    have hsa : sgn (D - A) = -1 := (sgn_eq_neg_one_iff _).mpr (by linarith)
    refine ⟨by rw [abs_of_neg (by linarith)]; linarith, ?_, ?_⟩
    · rw [hba, hsa]
    · rw [d2, d1, hba, hsa]; decide

/-! ### Characterizing one 4-point detector iteration -/

theorem pair_fst (x y : ℚ) : (if y < x then (y, x) else (x, y)).1 = min x y := by
  rcases le_or_lt x y with h | h
  · rw [if_neg (not_lt.mpr h), min_eq_left h]
  · rw [if_pos h, min_eq_right h.le]

theorem pair_snd (x y : ℚ) : (if y < x then (y, x) else (x, y)).2 = max x y := by
  rcases le_or_lt x y with h | h
  · rw [if_neg (not_lt.mpr h), max_eq_right h]
  · rw [if_pos h, max_eq_left h.le]

/-- The closure test of `RFC_cycle_find_4ptm` on the last four confirmed
points, in the min/max form of the spec: `min(B,C) ≥ min(A,D)` and
`max(B,C) ≤ max(A,D)`. -/
def cycleClosed (c : Ctx) : Prop :=
  let idx := c.residue_cnt - 4
  min (nth c.residue idx).value (nth c.residue (idx+3)).value ≤
    min (nth c.residue (idx+1)).value (nth c.residue (idx+2)).value ∧
  max (nth c.residue (idx+1)).value (nth c.residue (idx+2)).value ≤
    max (nth c.residue idx).value (nth c.residue (idx+3)).value

instance (c : Ctx) : Decidable (cycleClosed c) := by
  unfold cycleClosed; infer_instance

/-- One closing iteration of `RFC_cycle_find_4ptm`: count the cycle
`(residue[idx+1], residue[idx+2])` and remove those two points. -/
def cycleStep (c : Ctx) (flags : RFCFlags) : Ctx :=
  let idx := c.residue_cnt - 4
  let c1 := RFC_cycle_process_counts c (nth c.residue (idx+1)) (nth c.residue (idx+2)) flags
  {c1 with residue := c1.residue.take (idx+1) ++ c1.residue.drop (idx+3)}

theorem cycle_find_of_small (c : Ctx) (flags : RFCFlags) (h4 : ¬ 4 ≤ c.residue_cnt) :
    RFC_cycle_find_4ptm c flags = c := by
  rw [RFC_cycle_find_4ptm, dif_neg h4]

theorem cycle_find_of_open (c : Ctx) (flags : RFCFlags) (h4 : 4 ≤ c.residue_cnt)
    (hcl : ¬ cycleClosed c) : RFC_cycle_find_4ptm c flags = c := by
  rw [RFC_cycle_find_4ptm, dif_pos h4]
  simp only [pair_fst, pair_snd]
  rw [if_neg (by simpa [cycleClosed] using hcl)]

theorem cycle_find_of_closed (c : Ctx) (flags : RFCFlags) (h4 : 4 ≤ c.residue_cnt)
    (hcl : cycleClosed c) :
    RFC_cycle_find_4ptm c flags = RFC_cycle_find_4ptm (cycleStep c flags) flags := by
  rw [RFC_cycle_find_4ptm, dif_pos h4]
  simp only [pair_fst, pair_snd]
  rw [if_pos (by simpa [cycleClosed] using hcl)]
  rfl

theorem cycleStep_residue (c : Ctx) (flags : RFCFlags) :
    (cycleStep c flags).residue =
      c.residue.take (c.residue_cnt - 4 + 1) ++ c.residue.drop (c.residue_cnt - 4 + 3) := by
  simp only [cycleStep]
  simp [RFC_cycle_process_counts_residue]

theorem cycleStep_length (c : Ctx) (flags : RFCFlags) (h4 : 4 ≤ c.residue_cnt) :
    (cycleStep c flags).residue.length = c.residue.length - 2 := by
  have hle := c.residue_cnt_le_length
  rw [cycleStep_residue]
  rw [length_remove2 _ _ (by omega)]

/-- Generic loop invariant for `RFC_cycle_find_4ptm`: any property preserved
by a single closing iteration is preserved by the whole loop. -/
theorem cycle_find_rec (flags : RFCFlags) (P : Ctx → Prop)
    (hstep : ∀ c : Ctx, 4 ≤ c.residue_cnt → cycleClosed c → P c → P (cycleStep c flags)) :
    ∀ c : Ctx, P c → P (RFC_cycle_find_4ptm c flags) := by
  have main : ∀ (n : ℕ) (c : Ctx), c.residue.length ≤ n → P c → P (RFC_cycle_find_4ptm c flags) := by
    intro n
    induction n with
    | zero =>
        intro c hlen hP
        have h4 : ¬ 4 ≤ c.residue_cnt := by
          have := c.residue_cnt_le_length
          omega
        rw [cycle_find_of_small c flags h4]; exact hP
    | succ n ih =>
        intro c hlen hP
        by_cases h4 : 4 ≤ c.residue_cnt
        · by_cases hcl : cycleClosed c
          · rw [cycle_find_of_closed c flags h4 hcl]
            refine ih _ ?_ (hstep c h4 hcl hP)
            have hL := cycleStep_length c flags h4
            have := c.residue_cnt_le_length
            omega
          · rw [cycle_find_of_open c flags h4 hcl]; exact hP
        · rw [cycle_find_of_small c flags h4]; exact hP
  exact fun c => main c.residue.length c le_rfl

/-! ### Field preservation -/

/-- The context fields that the whole feeding pipeline never modifies
(class parameters, hysteresis, Wöhler parameters, increments, flags,
capacity, error code). -/
def Ctx.params (c : Ctx) :
    ℕ × ℚ × ℚ × ℚ × ℚ × ℚ × ℤ × ℕ × ℕ × RFCFlags × ℕ × RFCError :=
  (c.class_count, c.class_width, c.class_offset, c.hysteresis, c.wl_sd, c.wl_nd,
   c.wl_k, c.full_inc, c.curr_inc, c.internal_flags, c.residue_cap, c.error)

/-- `RFC_cycle_process_counts` only touches the damage accumulator and the
matrix. -/
theorem RFC_cycle_process_counts_shape (c : Ctx) (tp_from tp_to : Tp) (flags : RFCFlags) :
    ∃ d m, RFC_cycle_process_counts c tp_from tp_to flags =
      {c with pseudo_damage := d, rfm := m} := by
  rcases hd : flags.count_damage <;> rcases hr : flags.count_rfm <;>
    rcases hm : c.rfm with _ | m <;>
    simp [RFC_cycle_process_counts, hd, hr, hm] <;> (repeat' split) <;>
    exact ⟨_, _, rfl⟩

theorem cycleStep_state (c : Ctx) (flags : RFCFlags) :
    (cycleStep c flags).state = c.state := by
  simp only [cycleStep]
  obtain ⟨d, m, hs⟩ := RFC_cycle_process_counts_shape c
    (nth c.residue (c.residue_cnt - 4 + 1)) (nth c.residue (c.residue_cnt - 4 + 2)) flags
  rw [hs]

theorem cycleStep_params (c : Ctx) (flags : RFCFlags) :
    (cycleStep c flags).params = c.params := by
  simp only [cycleStep]
  obtain ⟨d, m, hs⟩ := RFC_cycle_process_counts_shape c
    (nth c.residue (c.residue_cnt - 4 + 1)) (nth c.residue (c.residue_cnt - 4 + 2)) flags
  rw [hs]; rfl

theorem cycleStep_slope (c : Ctx) (flags : RFCFlags) :
    (cycleStep c flags).internal_slope = c.internal_slope := by
  simp only [cycleStep]
  obtain ⟨d, m, hs⟩ := RFC_cycle_process_counts_shape c
    (nth c.residue (c.residue_cnt - 4 + 1)) (nth c.residue (c.residue_cnt - 4 + 2)) flags
  rw [hs]

theorem cycleStep_pos (c : Ctx) (flags : RFCFlags) :
    (cycleStep c flags).internal_pos = c.internal_pos := by
  simp only [cycleStep]
  obtain ⟨d, m, hs⟩ := RFC_cycle_process_counts_shape c
    (nth c.residue (c.residue_cnt - 4 + 1)) (nth c.residue (c.residue_cnt - 4 + 2)) flags
  rw [hs]

theorem cycle_find_state (c : Ctx) (flags : RFCFlags) :
    (RFC_cycle_find_4ptm c flags).state = c.state := by
  have := cycle_find_rec flags (fun x => x.state = c.state)
    (fun x _ _ hx => by dsimp only; rw [cycleStep_state]; exact hx) c rfl
  exact this

theorem cycle_find_params (c : Ctx) (flags : RFCFlags) :
    (RFC_cycle_find_4ptm c flags).params = c.params := by
  exact cycle_find_rec flags (fun x => x.params = c.params)
    (fun x _ _ hx => by dsimp only; rw [cycleStep_params]; exact hx) c rfl

theorem cycle_find_slope (c : Ctx) (flags : RFCFlags) :
    (RFC_cycle_find_4ptm c flags).internal_slope = c.internal_slope := by
  exact cycle_find_rec flags (fun x => x.internal_slope = c.internal_slope)
    (fun x _ _ hx => by dsimp only; rw [cycleStep_slope]; exact hx) c rfl

theorem cycle_find_pos (c : Ctx) (flags : RFCFlags) :
    (RFC_cycle_find_4ptm c flags).internal_pos = c.internal_pos := by
  exact cycle_find_rec flags (fun x => x.internal_pos = c.internal_pos)
    (fun x _ _ hx => by dsimp only; rw [cycleStep_pos]; exact hx) c rfl

/-! ### Preservation of the ordering invariants under residue edits -/

theorem altOk_pair (h : ℚ) (x y : Tp) (hxy : h < |y.value - x.value|) : altOk h [x, y] := by
  intro i hi
  simp only [List.length_cons, List.length_nil] at hi
  have : i = 0 := by omega
  subst this
  exact hxy

theorem altDir_pair (x y : Tp) : altDir [x, y] := by
  intro i hi
  simp only [List.length_cons, List.length_nil] at hi
  omega

theorem posIncr_pair (x y : Tp) (hxy : x.pos < y.pos) : posIncr [x, y] := by
  intro i hi
  simp only [List.length_cons, List.length_nil] at hi
  have : i = 0 := by omega
  subst this
  exact hxy

theorem altOk_snoc (h : ℚ) (l : List Tp) (x : Tp) (hl : altOk h l)
    (hx : h < |x.value - (nth l (l.length - 1)).value|) (hne : l ≠ []) :
    altOk h (l ++ [x]) := by
  have h1 : 1 ≤ l.length := List.length_pos.mpr hne
  have hlen2 : (l ++ [x]).length = l.length + 1 := by simp
  intro i hi
  rw [hlen2] at hi
  rw [nth_snoc l x (i+1), nth_snoc l x i]
  by_cases hc : i + 1 < l.length
  · rw [if_pos hc, if_pos (by omega)]
    exact hl i (by omega)
  · have he : i + 1 = l.length := by omega
    rw [if_neg (by omega), if_pos he, if_pos (by omega), show i = l.length - 1 by omega]
    exact hx

theorem altDir_snoc (l : List Tp) (x : Tp) (hd : altDir l)
    (hx : 2 ≤ l.length → sgn (x.value - (nth l (l.length - 1)).value) =
      - sgn ((nth l (l.length - 1)).value - (nth l (l.length - 2)).value)) :
    altDir (l ++ [x]) := by
  have hlen2 : (l ++ [x]).length = l.length + 1 := by simp
  intro i hi
  rw [hlen2] at hi
  rw [nth_snoc l x (i+2), nth_snoc l x (i+1), nth_snoc l x i]
  by_cases hc : i + 2 < l.length
  · rw [if_pos hc, if_pos (by omega), if_pos (by omega)]
    exact hd i (by omega)
  · have he : i + 2 = l.length := by omega
    rw [if_neg (by omega), if_pos he, if_pos (by omega), if_pos (by omega),
        show i + 1 = l.length - 1 by omega, show i = l.length - 2 by omega]
    exact hx (by omega)

theorem posIncr_snoc (l : List Tp) (x : Tp) (hl : posIncr l)
    (hx : (nth l (l.length - 1)).pos < x.pos) (hne : l ≠ []) :
    posIncr (l ++ [x]) := by
  have h1 : 1 ≤ l.length := List.length_pos.mpr hne
  have hlen2 : (l ++ [x]).length = l.length + 1 := by simp
  intro i hi
  rw [hlen2] at hi
  rw [nth_snoc l x (i+1), nth_snoc l x i]
  by_cases hc : i + 1 < l.length
  · rw [if_pos (show i < l.length by omega), if_pos hc]
    exact hl i (by omega)
  · have he : i + 1 = l.length := by omega
    rw [if_pos (show i < l.length by omega), if_neg (by omega), if_pos he,
        show i = l.length - 1 by omega]
    exact hx

theorem altOk_replace_last (h : ℚ) (l : List Tp) (x : Tp) (h2 : 2 ≤ l.length)
    (hl : altOk h l)
    (hx : h < |x.value - (nth l (l.length - 2)).value|) :
    altOk h (l.take (l.length - 1) ++ [x]) := by
  have hne : l ≠ [] := by
    intro he; subst he; simp at h2
  have hlen := length_replace_last l x hne
  intro i hi
  rw [hlen] at hi
  rw [nth_replace_last l x (i+1) hne, nth_replace_last l x i hne]
  by_cases hc : i + 1 < l.length - 1
  · rw [if_pos hc, if_pos (by omega)]
    exact hl i (by omega)
  · have he : i + 1 = l.length - 1 := by omega
    rw [if_neg (by omega), if_pos he, if_pos (by omega), show i = l.length - 2 by omega]
    exact hx

theorem altDir_replace_last (l : List Tp) (x : Tp) (h2 : 2 ≤ l.length)
    (hd : altDir l)
    (hx : sgn (x.value - (nth l (l.length - 2)).value) =
      sgn ((nth l (l.length - 1)).value - (nth l (l.length - 2)).value)) :
    altDir (l.take (l.length - 1) ++ [x]) := by
  have hne : l ≠ [] := by
    intro he; subst he; simp at h2
  have hlen := length_replace_last l x hne
  intro i hi
  rw [hlen] at hi
  rw [nth_replace_last l x (i+2) hne, nth_replace_last l x (i+1) hne,
      nth_replace_last l x i hne]
  by_cases hc : i + 2 < l.length - 1
  · rw [if_pos hc, if_pos (by omega), if_pos (by omega)]
    exact hd i (by omega)
  · have he : i + 2 = l.length - 1 := by omega
    rw [if_neg (by omega), if_pos he, if_pos (by omega), if_pos (by omega),
        show i + 1 = l.length - 2 by omega, hx]
    have horig := hd (l.length - 3) (by omega)
    rw [show l.length - 3 + 2 = l.length - 1 by omega,
        show l.length - 3 + 1 = l.length - 2 by omega] at horig
    rw [show i = l.length - 3 by omega]
    exact horig

theorem posIncr_replace_last (l : List Tp) (x : Tp) (h2 : 2 ≤ l.length)
    (hl : posIncr l)
    (hx : (nth l (l.length - 2)).pos < x.pos) :
    posIncr (l.take (l.length - 1) ++ [x]) := by
  have hne : l ≠ [] := by
    intro he; subst he; simp at h2
  have hlen := length_replace_last l x hne
  intro i hi
  rw [hlen] at hi
  rw [nth_replace_last l x (i+1) hne, nth_replace_last l x i hne]
  by_cases hc : i + 1 < l.length - 1
  · rw [if_pos (show i < l.length - 1 by omega), if_pos hc]
    exact hl i (by omega)
  · have he : i + 1 = l.length - 1 := by omega
    rw [if_pos (show i < l.length - 1 by omega), if_neg (by omega), if_pos he,
        show i = l.length - 2 by omega]
    exact hx

theorem altOk_take (h : ℚ) (l : List Tp) (k : ℕ) (hl : altOk h l) : altOk h (l.take k) := by
  intro i hi
  have hlen : (l.take k).length = min k l.length := by simp
  rw [hlen] at hi
  rw [nth_take _ _ _ (by omega), nth_take _ _ _ (by omega)]
  exact hl i (by omega)

theorem altDir_take (l : List Tp) (k : ℕ) (hd : altDir l) : altDir (l.take k) := by
  intro i hi
  have hlen : (l.take k).length = min k l.length := by simp
  rw [hlen] at hi
  rw [nth_take _ _ _ (by omega), nth_take _ _ _ (by omega), nth_take _ _ _ (by omega)]
  exact hd i (by omega)

theorem posIncr_take (l : List Tp) (k : ℕ) (hl : posIncr l) : posIncr (l.take k) := by
  intro i hi
  have hlen : (l.take k).length = min k l.length := by simp
  rw [hlen] at hi
  rw [nth_take _ _ _ (by omega), nth_take _ _ _ (by omega)]
  exact hl i (by omega)

theorem altOk_drop1 (h : ℚ) (l : List Tp) (hl : altOk h l) : altOk h (l.drop 1) := by
  intro i hi
  have hlen : (l.drop 1).length = l.length - 1 := by simp
  rw [hlen] at hi
  rw [nth_drop, nth_drop, Nat.add_comm 1 (i+1), Nat.add_comm 1 i]
  exact hl (i+1) (by omega)

theorem altDir_drop1 (l : List Tp) (hd : altDir l) : altDir (l.drop 1) := by
  intro i hi
  have hlen : (l.drop 1).length = l.length - 1 := by simp
  rw [hlen] at hi
  rw [nth_drop, nth_drop, nth_drop, Nat.add_comm 1 (i+2), Nat.add_comm 1 (i+1),
      Nat.add_comm 1 i]
  exact hd (i+1) (by omega)

theorem posIncr_drop1 (l : List Tp) (hl : posIncr l) : posIncr (l.drop 1) := by
  intro i hi
  have hlen : (l.drop 1).length = l.length - 1 := by simp
  rw [hlen] at hi
  rw [nth_drop, nth_drop, Nat.add_comm 1 (i+1), Nat.add_comm 1 i]
  exact hl (i+1) (by omega)

/-- The heart of claim C4 for the detector: removing the two inner points of
a closed 4-point pattern preserves alternation, the hysteresis gaps and the
position ordering of the residue. -/
theorem remove2_invariants (h : ℚ) (l : List Tp) (k : ℕ) (hh : 0 ≤ h)
    (hk : k + 4 ≤ l.length)
    (hOk : altOk h l) (hDir : altDir l) (hPos : posIncr l)
    (hcl : min (nth l k).value (nth l (k+3)).value ≤
             min (nth l (k+1)).value (nth l (k+2)).value ∧
           max (nth l (k+1)).value (nth l (k+2)).value ≤
             max (nth l k).value (nth l (k+3)).value) :
    altOk h (l.take (k+1) ++ l.drop (k+3)) ∧
    altDir (l.take (k+1) ++ l.drop (k+3)) ∧
    posIncr (l.take (k+1) ++ l.drop (k+3)) := by
  obtain ⟨hDA, hsgnDA, hsgnDC⟩ :=
    fourpt_closure_step h (nth l k).value (nth l (k+1)).value
      (nth l (k+2)).value (nth l (k+3)).value hh
      (hOk k (by omega)) (hOk (k+1) (by omega)) (hOk (k+2) (by omega))
      (hDir (k+1) (by omega)) (hDir k (by omega)) hcl
  have hlen := length_remove2 l k (by omega)
  refine ⟨?_, ?_, ?_⟩
  · intro i hi
    rw [hlen] at hi
    rw [nth_remove2 l k (i+1) (by omega), nth_remove2 l k i (by omega)]
    by_cases h1 : i + 1 ≤ k
    · rw [if_pos h1, if_pos (by omega)]
      exact hOk i (by omega)
    · by_cases h0 : i ≤ k
      · rw [if_neg h1, if_pos h0, show i = k by omega]
        exact hDA
      · rw [if_neg h1, if_neg h0]
        exact hOk (i+2) (by omega)
  · intro i hi
    rw [hlen] at hi
    rw [nth_remove2 l k (i+2) (by omega), nth_remove2 l k (i+1) (by omega),
        nth_remove2 l k i (by omega)]
    by_cases h2 : i + 2 ≤ k
    · rw [if_pos h2, if_pos (by omega), if_pos (by omega)]
      exact hDir i (by omega)
    · by_cases h1 : i + 1 ≤ k
      · rw [if_neg h2, if_pos h1, if_pos (by omega),
            show i + 2 + 2 = k + 3 by omega, show i + 1 = k by omega, hsgnDA]
        have horig := hDir i (by omega)
        rw [show i + 2 = k + 1 by omega, show i + 1 = k by omega] at horig
        exact horig
      · by_cases h0 : i ≤ k
        · rw [if_neg h2, if_neg h1, if_pos h0,
              show i + 2 + 2 = k + 4 by omega, show i + 1 + 2 = k + 3 by omega,
              show i = k by omega, ← hsgnDC]
          have horig := hDir (k+2) (by omega)
          rw [show k + 2 + 2 = k + 4 by omega, show k + 2 + 1 = k + 3 by omega] at horig
          exact horig
        · rw [if_neg h2, if_neg h1, if_neg h0]
          exact hDir (i+2) (by omega)
  · intro i hi
    rw [hlen] at hi
    rw [nth_remove2 l k (i+1) (by omega), nth_remove2 l k i (by omega)]
    by_cases h1 : i + 1 ≤ k
    · rw [if_pos (show i ≤ k by omega), if_pos h1]
      exact hPos i (by omega)
    · by_cases h0 : i ≤ k
      · rw [if_pos h0, if_neg h1, show i = k by omega]
        have p1 := hPos k (by omega)
        have p2 := hPos (k+1) (by omega)
        have p3 := hPos (k+2) (by omega)
        rw [show k + 1 + 1 = k + 2 by omega] at p2
        rw [show k + 2 + 1 = k + 3 by omega] at p3
        rw [show k + 1 + 2 = k + 3 by omega]
        omega
      · rw [if_neg h0, if_neg h1]
        exact hPos (i+2) (by omega)

/-! ### Branch equations for the turning-point filter -/

theorem filter_eq_INIT (c : Ctx) (pt : Tp) (h : c.state = .INIT) :
    RFC_feed_filter_pt c pt =
      ({c with extrema_min := pt, extrema_max := pt, state := .BUSY}, false) := by
  rw [RFC_feed_filter_pt,
      if_pos (show c.state.idx < RFCState.BUSY_INTERIM.idx by rw [h]; decide),
      if_pos h]

theorem filter_eq_BUSY_min (c : Ctx) (pt : Tp) (h : c.state = .BUSY)
    (hv : pt.value < c.extrema_min.value) :
    RFC_feed_filter_pt c pt =
      (if c.hysteresis < value_delta pt.value c.extrema_max.value then
        ({c with extrema_min := pt, internal_slope := -1, state := .BUSY_INTERIM,
                 residue := c.residue ++ [c.extrema_max, pt]}, true)
      else ({c with extrema_min := pt}, false)) := by
  rw [RFC_feed_filter_pt,
      if_pos (show c.state.idx < RFCState.BUSY_INTERIM.idx by rw [h]; decide),
      if_neg (show ¬ c.state = .INIT by rw [h]; decide)]
  dsimp only
  rw [if_pos hv]
  dsimp only
  by_cases hd : c.hysteresis < value_delta pt.value c.extrema_max.value
  · rw [if_pos hd, if_pos ⟨by decide, hd⟩, if_pos rfl, if_pos rfl]
  · rw [if_neg hd, if_neg (by rw [not_and]; intro _; exact hd)]

theorem filter_eq_BUSY_max (c : Ctx) (pt : Tp) (h : c.state = .BUSY)
    (hv1 : ¬ pt.value < c.extrema_min.value) (hv2 : c.extrema_max.value < pt.value) :
    RFC_feed_filter_pt c pt =
      (if c.hysteresis < value_delta c.extrema_min.value pt.value then
        ({c with extrema_max := pt, internal_slope := 1, state := .BUSY_INTERIM,
                 residue := c.residue ++ [c.extrema_min, pt]}, true)
      else ({c with extrema_max := pt}, false)) := by
  rw [RFC_feed_filter_pt,
      if_pos (show c.state.idx < RFCState.BUSY_INTERIM.idx by rw [h]; decide),
      if_neg (show ¬ c.state = .INIT by rw [h]; decide)]
  dsimp only
  rw [if_neg hv1, if_pos hv2]
  dsimp only
  by_cases hd : c.hysteresis < value_delta c.extrema_min.value pt.value
  · rw [if_pos hd, if_pos ⟨by decide, hd⟩, if_neg (by decide), if_neg (by decide)]
  · rw [if_neg hd, if_neg (by rw [not_and]; intro _; exact hd)]

theorem filter_eq_BUSY_none (c : Ctx) (pt : Tp) (h : c.state = .BUSY)
    (hv1 : ¬ pt.value < c.extrema_min.value) (hv2 : ¬ c.extrema_max.value < pt.value) :
    RFC_feed_filter_pt c pt = (c, false) := by
  rw [RFC_feed_filter_pt,
      if_pos (show c.state.idx < RFCState.BUSY_INTERIM.idx by rw [h]; decide),
      if_neg (show ¬ c.state = .INIT by rw [h]; decide)]
  dsimp only
  rw [if_neg hv1, if_neg hv2]
  dsimp only
  rw [if_neg (by rw [not_and]; intro h0; exact absurd h0 (by decide))]

theorem filter_eq_BI_continue (c : Ctx) (pt : Tp) (h : c.state = .BUSY_INTERIM)
    (hs : sgn (pt.value - (nth c.residue (c.residue.length - 1)).value) = c.internal_slope) :
    RFC_feed_filter_pt c pt =
      (if (nth c.residue (c.residue.length - 1)).value ≠ pt.value then
        ({c with residue := c.residue.take (c.residue.length - 1) ++ [pt]}, false)
      else (c, false)) := by
  rw [RFC_feed_filter_pt,
      if_neg (show ¬ c.state.idx < RFCState.BUSY_INTERIM.idx by rw [h]; decide)]
  dsimp only
  rw [if_pos hs]

theorem filter_eq_BI_reversal (c : Ctx) (pt : Tp) (h : c.state = .BUSY_INTERIM)
    (hs : ¬ sgn (pt.value - (nth c.residue (c.residue.length - 1)).value) = c.internal_slope) :
    RFC_feed_filter_pt c pt =
      (if c.hysteresis < value_delta (nth c.residue (c.residue.length - 1)).value pt.value then
        ({c with internal_slope := sgn (pt.value - (nth c.residue (c.residue.length - 1)).value),
                 residue := c.residue ++ [pt]}, true)
      else (c, false)) := by
  rw [RFC_feed_filter_pt,
      if_neg (show ¬ c.state.idx < RFCState.BUSY_INTERIM.idx by rw [h]; decide)]
  dsimp only
  rw [if_neg hs]

/-! ### The residue invariant package carried through the detector -/

theorem hysteresis_of_params {a b : Ctx} (h : a.params = b.params) :
    a.hysteresis = b.hysteresis := congrArg (fun p => p.2.2.2.1) h

theorem class_count_of_params {a b : Ctx} (h : a.params = b.params) :
    a.class_count = b.class_count := congrArg (fun p => p.1) h

theorem class_width_of_params {a b : Ctx} (h : a.params = b.params) :
    a.class_width = b.class_width := congrArg (fun p => p.2.1) h

theorem wl_sd_of_params {a b : Ctx} (h : a.params = b.params) :
    a.wl_sd = b.wl_sd := congrArg (fun p => p.2.2.2.2.1) h

theorem wl_nd_of_params {a b : Ctx} (h : a.params = b.params) :
    a.wl_nd = b.wl_nd := congrArg (fun p => p.2.2.2.2.2.1) h

theorem internal_flags_of_params {a b : Ctx} (h : a.params = b.params) :
    a.internal_flags = b.internal_flags :=
  congrArg (fun p => p.2.2.2.2.2.2.2.2.2.1) h

theorem error_of_params {a b : Ctx} (h : a.params = b.params) :
    a.error = b.error := congrArg (fun p => p.2.2.2.2.2.2.2.2.2.2.2) h

/-- The facts about a residue (with its trailing interim point, when
present) that hold at every resting point once two turning points exist, and
that the 4-point detector must preserve. -/
def ResInv (c : Ctx) : Prop :=
  2 ≤ c.residue.length ∧ altOk c.hysteresis c.residue ∧ altDir c.residue ∧
  posIncr c.residue ∧ (nth c.residue (c.residue.length - 1)).pos ≤ c.internal_pos ∧
  (c.state = .BUSY_INTERIM → c.internal_slope =
    sgn ((nth c.residue (c.residue.length - 1)).value -
         (nth c.residue (c.residue.length - 2)).value)) ∧
  0 ≤ c.hysteresis

theorem cycleStep_resInv (flags : RFCFlags) (c : Ctx) (h4 : 4 ≤ c.residue_cnt)
    (hcl : cycleClosed c) (hR : ResInv c) : ResInv (cycleStep c flags) := by
  obtain ⟨hlen2, hOk, hDir, hPos, hlast, hslope, hh⟩ := hR
  have hcle := c.residue_cnt_le_length
  have hkl : c.residue_cnt - 4 + 4 ≤ c.residue.length := by omega
  obtain ⟨hOk', hDir', hPos'⟩ :=
    remove2_invariants c.hysteresis c.residue (c.residue_cnt - 4) hh hkl hOk hDir hPos
      (by simpa [cycleClosed] using hcl)
  have hres := cycleStep_residue c flags
  have hLnew := cycleStep_length c flags h4
  have hhyst : (cycleStep c flags).hysteresis = c.hysteresis :=
    hysteresis_of_params (cycleStep_params c flags)
  have hpos' : (cycleStep c flags).internal_pos = c.internal_pos := cycleStep_pos c flags
  have hst : (cycleStep c flags).state = c.state := cycleStep_state c flags
  have hsl : (cycleStep c flags).internal_slope = c.internal_slope := cycleStep_slope c flags
  have hlast_new :
      nth (cycleStep c flags).residue ((cycleStep c flags).residue.length - 1) =
        nth c.residue (c.residue.length - 1) := by
    rw [hLnew, hres, nth_remove2 _ _ _ (by omega),
        if_neg (by omega), show c.residue.length - 2 - 1 + 2 = c.residue.length - 1 by omega]
  refine ⟨by omega, ?_, ?_, ?_, ?_, ?_, by rw [hhyst]; exact hh⟩
  · rw [hhyst, hres]; exact hOk'
  · rw [hres]; exact hDir'
  · rw [hres]; exact hPos'
  · rw [hlast_new, hpos']; exact hlast
  · intro hbi
    rw [hst] at hbi
    have hcnt : c.residue_cnt = c.residue.length - 1 := by
      unfold Ctx.residue_cnt; rw [if_pos hbi]
    have hsnd_new :
        nth (cycleStep c flags).residue ((cycleStep c flags).residue.length - 2) =
          nth c.residue (c.residue.length - 2) := by
      rw [hLnew, hres, nth_remove2 _ _ _ (by omega),
          if_neg (by omega), show c.residue.length - 2 - 2 + 2 = c.residue.length - 2 by omega]
    rw [hsl, hlast_new, hsnd_new]
    exact hslope hbi

theorem cycle_find_resInv (flags : RFCFlags) (c : Ctx) (hR : ResInv c) :
    ResInv (RFC_cycle_find_4ptm c flags) :=
  cycle_find_rec flags ResInv (cycleStep_resInv flags) c hR

/-! ### The feeding invariant (claim C4) -/

/-- Signs of two deltas that differ must be opposite. -/
theorem sgn_ne_eq_neg (x y : ℚ) (hne : sgn x ≠ sgn y) : sgn x = - sgn y := by
  rcases sgn_cases x with hx | hx <;> rcases sgn_cases y with hy | hy <;>
    rw [hx, hy] <;> first | rfl | (exfalso; rw [hx, hy] at hne; exact hne rfl)

/-- Extending a run beyond the current interim point keeps the delta to the
last confirmed point above the hysteresis and keeps its direction. -/
theorem slope_extend (h S I P : ℚ) (hh : 0 ≤ h)
    (hOk2 : h < |I - S|) (hdir : sgn (P - I) = sgn (I - S)) :
    h < |P - S| ∧ sgn (P - S) = sgn (I - S) := by
  rcases sgn_cases (I - S) with hs | hs
  · have h1 : 0 ≤ I - S := (sgn_eq_one_iff _).mp hs
    have h2 : 0 ≤ P - I := (sgn_eq_one_iff _).mp (by rw [hdir, hs])
    rw [abs_of_nonneg h1] at hOk2
    constructor
    · rw [abs_of_nonneg (by linarith)]; linarith
    · rw [hs, sgn_eq_one_iff]; linarith
  · have h1 : I - S < 0 := (sgn_eq_neg_one_iff _).mp hs
    have h2 : P - I < 0 := (sgn_eq_neg_one_iff _).mp (by rw [hdir, hs])
    rw [abs_of_neg h1] at hOk2
    constructor
    · rw [abs_of_neg (by linarith)]; linarith
    · rw [hs, sgn_eq_neg_one_iff]; linarith

/-- The state invariant maintained across `RFC_feed_once` calls: hysteresis
nonnegative; empty residue while searching the first turning point, with the
tracked extrema ordered and within the already-seen positions; and the
`ResInv` residue package once in `BUSY_INTERIM`. -/
def Inv (c : Ctx) : Prop :=
  0 ≤ c.hysteresis ∧
  (c.state = .INIT → c.residue = []) ∧
  (c.state = .BUSY → c.residue = [] ∧ c.extrema_min.value ≤ c.extrema_max.value ∧
      c.extrema_min.pos ≤ c.internal_pos ∧ c.extrema_max.pos ≤ c.internal_pos) ∧
  (c.state = .BUSY_INTERIM → ResInv c)

theorem feed_step_inv (c : Ctx) (v : ℚ)
    (hs : c.state = .INIT ∨ c.state = .BUSY ∨ c.state = .BUSY_INTERIM)
    (hI : Inv c) :
    Inv (RFC_feed_step c v) ∧
    ((RFC_feed_step c v).state = .BUSY ∨ (RFC_feed_step c v).state = .BUSY_INTERIM) := by
  obtain ⟨hh, hInit, hBusy, hBI⟩ := hI
  have hstep : RFC_feed_step c v =
      RFC_feed_once {c with internal_pos := c.internal_pos + 1}
        ⟨v, QUANTIZE c v, c.internal_pos + 1⟩ c.internal_flags := rfl
  set pt : Tp := ⟨v, QUANTIZE c v, c.internal_pos + 1⟩ with hpt
  set c' : Ctx := {c with internal_pos := c.internal_pos + 1} with hc'
  have hptpos : pt.pos = c.internal_pos + 1 := rfl
  rcases hs with hst | hst | hst
  · -- INIT: record the very first point as both extrema
    have hres0 : c.residue = [] := hInit hst
    have hfo : RFC_feed_once c' pt c.internal_flags =
        {c' with extrema_min := pt, extrema_max := pt, state := .BUSY} := by
      simp only [RFC_feed_once]
      rw [filter_eq_INIT c' pt hst]
      rfl
    rw [hstep, hfo]
    refine ⟨⟨hh, ?_, ?_, ?_⟩, Or.inl rfl⟩
    · intro hab
      exact absurd (show RFCState.BUSY = RFCState.INIT from hab) (by decide)
    · intro _
      exact ⟨hres0, le_refl _, le_refl _, le_refl _⟩
    · intro hab
      exact absurd (show RFCState.BUSY = RFCState.BUSY_INTERIM from hab) (by decide)
  · -- BUSY: still searching the first turning point(s)
    obtain ⟨hres0, hmm, hpmin, hpmax⟩ := hBusy hst
    by_cases hv1 : pt.value < c.extrema_min.value
    · by_cases hd : c.hysteresis < value_delta pt.value c.extrema_max.value
      · -- first two turning points found, falling slope
        set r : Ctx := {c' with extrema_min := pt, internal_slope := -1, state := .BUSY_INTERIM, residue := c'.residue ++ [c'.extrema_max, pt]} with hr
        have hrres : r.residue = [c.extrema_max, pt] := by
          show c.residue ++ [c.extrema_max, pt] = [c.extrema_max, pt]
          rw [hres0]
          rfl
        have hRr : ResInv r := by
          refine ⟨by rw [hrres]; simp, ?_, ?_, ?_, ?_, ?_, hh⟩
          · rw [hrres]
            refine altOk_pair _ _ _ ?_
            rw [abs_sub_comm]
            exact hd
          · rw [hrres]; exact altDir_pair _ _
          · rw [hrres]
            refine posIncr_pair _ _ ?_
            show c.extrema_max.pos < c.internal_pos + 1
            omega
          · rw [hrres]
            exact le_refl _
          · intro _
            rw [hrres]
            show (-1 : ℤ) = sgn (pt.value - c.extrema_max.value)
            have hlt : pt.value - c.extrema_max.value < 0 := by linarith
            rw [(sgn_eq_neg_one_iff _).mpr hlt]
        have hfo : RFC_feed_once c' pt c.internal_flags = RFC_cycle_find_4ptm r c.internal_flags ∨
            RFC_feed_once c' pt c.internal_flags = r := by
          simp only [RFC_feed_once]
          rw [filter_eq_BUSY_min c' pt hst hv1, if_pos hd]
          by_cases hcc : c.class_count ≠ 0
          · left
            rw [if_pos rfl, if_pos hcc]
          · right
            rw [if_pos rfl, if_neg hcc,
                if_neg (show ¬ 1 < r.residue_cnt by
                  rw [Ctx.residue_cnt, if_pos (show r.state = .BUSY_INTERIM from rfl), hrres]
                  simp)]
        have hfin : ∀ x, (x = RFC_cycle_find_4ptm r c.internal_flags ∨ x = r) →
            Inv x ∧ (x.state = .BUSY ∨ x.state = .BUSY_INTERIM) := by
          rintro x (hx | hx) <;> subst hx
          · have hRr' := cycle_find_resInv c.internal_flags r hRr
            have hstx : (RFC_cycle_find_4ptm r c.internal_flags).state = .BUSY_INTERIM := by
              rw [cycle_find_state]
            have hhx : (RFC_cycle_find_4ptm r c.internal_flags).hysteresis = c.hysteresis :=
              hysteresis_of_params (cycle_find_params r c.internal_flags)
            refine ⟨⟨by rw [hhx]; exact hh, ?_, ?_, fun _ => hRr'⟩, Or.inr hstx⟩
            · intro hab; rw [hstx] at hab; exact absurd hab (by decide)
            · intro hab; rw [hstx] at hab; exact absurd hab (by decide)
          · refine ⟨⟨hh, ?_, ?_, fun _ => hRr⟩, Or.inr rfl⟩
            · intro hab
              exact absurd (show RFCState.BUSY_INTERIM = RFCState.INIT from hab) (by decide)
            · intro hab
              exact absurd (show RFCState.BUSY_INTERIM = RFCState.BUSY from hab) (by decide)
        rw [hstep]
        exact hfin _ hfo
      · -- new minimum, hysteresis not exceeded
        have hfo : RFC_feed_once c' pt c.internal_flags = {c' with extrema_min := pt} := by
          simp only [RFC_feed_once]
          rw [filter_eq_BUSY_min c' pt hst hv1, if_neg hd]
          rfl
        rw [hstep, hfo]
        refine ⟨⟨hh, ?_, ?_, ?_⟩, Or.inl hst⟩
        · intro hab
          rw [show ({c' with extrema_min := pt} : Ctx).state = c.state from rfl, hst] at hab
          exact absurd hab (by decide)
        · intro _
          refine ⟨hres0, (lt_of_lt_of_le hv1 hmm).le, le_refl _, ?_⟩
          show c.extrema_max.pos ≤ c.internal_pos + 1
          omega
        · intro hab
          rw [show ({c' with extrema_min := pt} : Ctx).state = c.state from rfl, hst] at hab
          exact absurd hab (by decide)
    · by_cases hv2 : c.extrema_max.value < pt.value
      · by_cases hd : c.hysteresis < value_delta c.extrema_min.value pt.value
        · -- first two turning points found, rising slope
          set r : Ctx := {c' with extrema_max := pt, internal_slope := 1, state := .BUSY_INTERIM, residue := c'.residue ++ [c'.extrema_min, pt]} with hr
          have hrres : r.residue = [c.extrema_min, pt] := by
            show c.residue ++ [c.extrema_min, pt] = [c.extrema_min, pt]
            rw [hres0]
            rfl
          have hRr : ResInv r := by
            refine ⟨by rw [hrres]; simp, ?_, ?_, ?_, ?_, ?_, hh⟩
            · rw [hrres]
              exact altOk_pair _ _ _ hd
            · rw [hrres]; exact altDir_pair _ _
            · rw [hrres]
              refine posIncr_pair _ _ ?_
              show c.extrema_min.pos < c.internal_pos + 1
              omega
            · rw [hrres]
              exact le_refl _
            · intro _
              rw [hrres]
              show (1 : ℤ) = sgn (pt.value - c.extrema_min.value)
              have hge : 0 ≤ pt.value - c.extrema_min.value := by
                have := not_lt.mp hv1
                linarith
              rw [(sgn_eq_one_iff _).mpr hge]
          have hfo : RFC_feed_once c' pt c.internal_flags =
              RFC_cycle_find_4ptm r c.internal_flags ∨
              RFC_feed_once c' pt c.internal_flags = r := by
            simp only [RFC_feed_once]
            rw [filter_eq_BUSY_max c' pt hst hv1 hv2, if_pos hd]
            by_cases hcc : c.class_count ≠ 0
            · left
              rw [if_pos rfl, if_pos hcc]
            · right
              rw [if_pos rfl, if_neg hcc,
                  if_neg (show ¬ 1 < r.residue_cnt by
                    rw [Ctx.residue_cnt, if_pos (show r.state = .BUSY_INTERIM from rfl), hrres]
                    simp)]
          have hfin : ∀ x, (x = RFC_cycle_find_4ptm r c.internal_flags ∨ x = r) →
              Inv x ∧ (x.state = .BUSY ∨ x.state = .BUSY_INTERIM) := by
            rintro x (hx | hx) <;> subst hx
            · have hRr' := cycle_find_resInv c.internal_flags r hRr
              have hstx : (RFC_cycle_find_4ptm r c.internal_flags).state = .BUSY_INTERIM := by
                rw [cycle_find_state]
              have hhx : (RFC_cycle_find_4ptm r c.internal_flags).hysteresis = c.hysteresis :=
                hysteresis_of_params (cycle_find_params r c.internal_flags)
              refine ⟨⟨by rw [hhx]; exact hh, ?_, ?_, fun _ => hRr'⟩, Or.inr hstx⟩
              · intro hab; rw [hstx] at hab; exact absurd hab (by decide)
              · intro hab; rw [hstx] at hab; exact absurd hab (by decide)
            · refine ⟨⟨hh, ?_, ?_, fun _ => hRr⟩, Or.inr rfl⟩
              · intro hab
                exact absurd (show RFCState.BUSY_INTERIM = RFCState.INIT from hab) (by decide)
              · intro hab
                exact absurd (show RFCState.BUSY_INTERIM = RFCState.BUSY from hab) (by decide)
          rw [hstep]
          exact hfin _ hfo
        · have hfo : RFC_feed_once c' pt c.internal_flags = {c' with extrema_max := pt} := by
            simp only [RFC_feed_once]
            rw [filter_eq_BUSY_max c' pt hst hv1 hv2, if_neg hd]
            rfl
          rw [hstep, hfo]
          refine ⟨⟨hh, ?_, ?_, ?_⟩, Or.inl hst⟩
          · intro hab
            rw [show ({c' with extrema_max := pt} : Ctx).state = c.state from rfl, hst] at hab
            exact absurd hab (by decide)
          · intro _
            refine ⟨hres0, ?_, ?_, le_refl _⟩
            · have := not_lt.mp hv1
              linarith
            · show c.extrema_min.pos ≤ c.internal_pos + 1
              omega
          · intro hab
            rw [show ({c' with extrema_max := pt} : Ctx).state = c.state from rfl, hst] at hab
            exact absurd hab (by decide)
      · -- neither a new minimum nor a new maximum
        have hfo : RFC_feed_once c' pt c.internal_flags = c' := by
          simp only [RFC_feed_once]
          rw [filter_eq_BUSY_none c' pt hst hv1 hv2]
          rfl
        rw [hstep, hfo]
        refine ⟨⟨hh, ?_, ?_, ?_⟩, Or.inl hst⟩
        · intro hab; rw [show c'.state = c.state from rfl, hst] at hab
          exact absurd hab (by decide)
        · intro _
          refine ⟨hres0, hmm, ?_, ?_⟩
          · show c.extrema_min.pos ≤ c.internal_pos + 1
            omega
          · show c.extrema_max.pos ≤ c.internal_pos + 1
            omega
        · intro hab; rw [show c'.state = c.state from rfl, hst] at hab
          exact absurd hab (by decide)
  · -- BUSY_INTERIM
    obtain ⟨hlen2, hOk, hDir, hPos, hlast, hslope, _⟩ := hBI hst
    have hslope' := hslope hst
    have hlne : c.residue ≠ [] := by
      intro hcon; rw [hcon] at hlen2; simp at hlen2
    have hOk2 := hOk (c.residue.length - 2) (by omega)
    rw [show c.residue.length - 2 + 1 = c.residue.length - 1 by omega] at hOk2
    by_cases hsgn : sgn (pt.value - (nth c.residue (c.residue.length - 1)).value) =
        c.internal_slope
    · -- scenario (1): the slope continues
      by_cases hne : (nth c.residue (c.residue.length - 1)).value ≠ pt.value
      · set r : Ctx := {c' with residue := c'.residue.take (c'.residue.length - 1) ++ [pt]} with hr
        have hfo : RFC_feed_once c' pt c.internal_flags = r := by
          simp only [RFC_feed_once]
          rw [filter_eq_BI_continue c' pt hst hsgn, if_pos hne]
          rfl
        have hext := slope_extend c.hysteresis (nth c.residue (c.residue.length - 2)).value
          (nth c.residue (c.residue.length - 1)).value pt.value hh hOk2
          (by rw [hsgn, hslope'])
        have hrres : r.residue = c.residue.take (c.residue.length - 1) ++ [pt] := rfl
        have hrlen : r.residue.length = c.residue.length := by
          rw [hrres, length_replace_last c.residue pt hlne]
        have hRr : ResInv r := by
          refine ⟨by omega, ?_, ?_, ?_, ?_, ?_, hh⟩
          · rw [hrres]
            exact altOk_replace_last _ _ _ hlen2 hOk hext.1
          · rw [hrres]
            exact altDir_replace_last _ _ hlen2 hDir hext.2
          · rw [hrres]
            refine posIncr_replace_last _ _ hlen2 hPos ?_
            have hp2 := hPos (c.residue.length - 2) (by omega)
            rw [show c.residue.length - 2 + 1 = c.residue.length - 1 by omega] at hp2
            show (nth c.residue (c.residue.length - 2)).pos < c.internal_pos + 1
            omega
          · rw [hrlen, hrres, nth_replace_last c.residue pt _ hlne, if_neg (by omega),
                if_pos rfl]
          · intro _
            rw [hrlen, hrres, nth_replace_last c.residue pt _ hlne, if_neg (by omega),
                if_pos rfl, nth_replace_last c.residue pt _ hlne, if_pos (by omega)]
            show c.internal_slope =
              sgn (pt.value - (nth c.residue (c.residue.length - 2)).value)
            rw [hslope', hext.2]
        rw [hstep, hfo]
        refine ⟨⟨hh, ?_, ?_, fun _ => hRr⟩, Or.inr hst⟩
        · intro hab; rw [show r.state = c.state from rfl, hst] at hab
          exact absurd hab (by decide)
        · intro hab; rw [show r.state = c.state from rfl, hst] at hab
          exact absurd hab (by decide)
      · have hfo : RFC_feed_once c' pt c.internal_flags = c' := by
          simp only [RFC_feed_once]
          rw [filter_eq_BI_continue c' pt hst hsgn, if_neg hne]
          rfl
        rw [hstep, hfo]
        have hRc' : ResInv c' := by
          refine ⟨hlen2, hOk, hDir, hPos, ?_, fun _ => hslope', hh⟩
          show (nth c.residue (c.residue.length - 1)).pos ≤ c.internal_pos + 1
          omega
        refine ⟨⟨hh, ?_, ?_, fun _ => hRc'⟩, Or.inr hst⟩
        · intro hab; rw [show c'.state = c.state from rfl, hst] at hab
          exact absurd hab (by decide)
        · intro hab; rw [show c'.state = c.state from rfl, hst] at hab
          exact absurd hab (by decide)
    · -- slope reversal
      by_cases hd : c.hysteresis <
          value_delta (nth c.residue (c.residue.length - 1)).value pt.value
      · -- scenario (2): the interim point becomes a turning point
        set c2 : Ctx := {c' with internal_slope := sgn (pt.value - (nth c'.residue (c'.residue.length - 1)).value), residue := c'.residue ++ [pt]} with hc2
        have hc2res : c2.residue = c.residue ++ [pt] := rfl
        have hc2len : c2.residue.length = c.residue.length + 1 := by
          rw [hc2res]; simp
        have hRc2 : ResInv c2 := by
          refine ⟨by omega, ?_, ?_, ?_, ?_, ?_, hh⟩
          · rw [hc2res]
            exact altOk_snoc _ _ _ hOk hd hlne
          · rw [hc2res]
            refine altDir_snoc _ _ hDir ?_
            intro _
            have h1 : sgn (pt.value - (nth c.residue (c.residue.length - 1)).value) ≠
                sgn ((nth c.residue (c.residue.length - 1)).value -
                     (nth c.residue (c.residue.length - 2)).value) := by
              rw [← hslope']; exact hsgn
            exact sgn_ne_eq_neg _ _ h1
          · rw [hc2res]
            refine posIncr_snoc _ _ hPos ?_ hlne
            show (nth c.residue (c.residue.length - 1)).pos < c.internal_pos + 1
            omega
          · rw [hc2len, hc2res, show c.residue.length + 1 - 1 = c.residue.length from rfl,
                nth_snoc c.residue pt _, if_neg (by omega), if_pos rfl]
          · intro _
            rw [hc2len, hc2res, show c.residue.length + 1 - 1 = c.residue.length from rfl,
                show c.residue.length + 1 - 2 = c.residue.length - 1 by omega,
                nth_snoc c.residue pt _, if_neg (by omega), if_pos rfl,
                nth_snoc c.residue pt _, if_pos (by omega)]
        have hfo : RFC_feed_once c' pt c.internal_flags =
            RFC_cycle_find_4ptm c2 c.internal_flags ∨
            RFC_feed_once c' pt c.internal_flags = RFC_residue_remove_item c2 0 1 := by
          simp only [RFC_feed_once]
          rw [filter_eq_BI_reversal c' pt hst hsgn, if_pos hd]
          by_cases hcc : c.class_count ≠ 0
          · left
            rw [if_pos rfl, if_pos hcc]
          · right
            rw [if_pos rfl, if_neg hcc,
                if_pos (show 1 < c2.residue_cnt by
                  rw [Ctx.residue_cnt, if_pos (show c2.state = .BUSY_INTERIM from hst), hc2len]
                  omega)]
        rw [hstep]
        rcases hfo with hfo | hfo <;> rw [hfo]
        · have hRr' := cycle_find_resInv c.internal_flags c2 hRc2
          have hstx : (RFC_cycle_find_4ptm c2 c.internal_flags).state = .BUSY_INTERIM := by
            rw [cycle_find_state]
            exact hst
          have hhx : (RFC_cycle_find_4ptm c2 c.internal_flags).hysteresis = c.hysteresis :=
            hysteresis_of_params (cycle_find_params c2 c.internal_flags)
          refine ⟨⟨by rw [hhx]; exact hh, ?_, ?_, fun _ => hRr'⟩, Or.inr hstx⟩
          · intro hab; rw [hstx] at hab; exact absurd hab (by decide)
          · intro hab; rw [hstx] at hab; exact absurd hab (by decide)
        · set r := RFC_residue_remove_item c2 0 1 with hrr
          have hrres : r.residue = (c.residue ++ [pt]).drop 1 := by
            show c2.residue.take 0 ++ c2.residue.drop (0 + 1) = (c.residue ++ [pt]).drop 1
            rw [hc2res]
            rfl
          have hrlen : r.residue.length = c.residue.length := by
            rw [hrres]; simp
          have hRr : ResInv r := by
            refine ⟨by omega, ?_, ?_, ?_, ?_, ?_, hh⟩
            · rw [hrres]
              refine altOk_drop1 _ _ ?_
              rw [← hc2res]
              exact hRc2.2.1
            · rw [hrres]
              refine altDir_drop1 _ ?_
              rw [← hc2res]
              exact hRc2.2.2.1
            · rw [hrres]
              refine posIncr_drop1 _ ?_
              rw [← hc2res]
              exact hRc2.2.2.2.1
            · rw [hrlen, hrres, nth_drop,
                  show 1 + (c.residue.length - 1) = c.residue.length by omega,
                  nth_snoc c.residue pt _, if_neg (by omega), if_pos rfl]
              exact le_refl _
            · intro _
              rw [hrlen, hrres, nth_drop,
                  show 1 + (c.residue.length - 1) = c.residue.length by omega,
                  nth_drop, show 1 + (c.residue.length - 2) = c.residue.length - 1 by omega,
                  nth_snoc c.residue pt _, if_neg (by omega), if_pos rfl,
                  nth_snoc c.residue pt _, if_pos (by omega)]
              rfl
          refine ⟨⟨hh, ?_, ?_, fun _ => hRr⟩, Or.inr ?_⟩
          · intro hab
            rw [show r.state = c.state from rfl, hst] at hab
            exact absurd hab (by decide)
          · intro hab
            rw [show r.state = c.state from rfl, hst] at hab
            exact absurd hab (by decide)
          · rw [show r.state = c.state from rfl]; exact hst
      · -- scenario (3): inside the hysteresis band
        have hfo : RFC_feed_once c' pt c.internal_flags = c' := by
          simp only [RFC_feed_once]
          rw [filter_eq_BI_reversal c' pt hst hsgn, if_neg hd]
          rfl
        rw [hstep, hfo]
        have hRc' : ResInv c' := by
          refine ⟨hlen2, hOk, hDir, hPos, ?_, fun _ => hslope', hh⟩
          show (nth c.residue (c.residue.length - 1)).pos ≤ c.internal_pos + 1
          omega
        refine ⟨⟨hh, ?_, ?_, fun _ => hRc'⟩, Or.inr hst⟩
        · intro hab; rw [show c'.state = c.state from rfl, hst] at hab
          exact absurd hab (by decide)
        · intro hab; rw [show c'.state = c.state from rfl, hst] at hab
          exact absurd hab (by decide)

/-! ### State closure of the feeding loop -/

theorem RFC_feed_once_state (c : Ctx) (pt : Tp) (flags : RFCFlags)
    (hs : c.state = .INIT ∨ c.state = .BUSY ∨ c.state = .BUSY_INTERIM) :
    (RFC_feed_once c pt flags).state = .BUSY ∨
    (RFC_feed_once c pt flags).state = .BUSY_INTERIM := by
  rcases hs with hst | hst | hst
  · simp only [RFC_feed_once]
    rw [filter_eq_INIT c pt hst]
    exact Or.inl rfl
  · by_cases hv1 : pt.value < c.extrema_min.value
    · simp only [RFC_feed_once]
      rw [filter_eq_BUSY_min c pt hst hv1]
      by_cases hd : c.hysteresis < value_delta pt.value c.extrema_max.value
      · rw [if_pos hd, if_pos rfl]
        right
        by_cases hcc : c.class_count ≠ 0
        · rw [if_pos hcc, cycle_find_state]
        · rw [if_neg hcc]
          split <;> rfl
      · rw [if_neg hd]
        left
        exact hst
    · by_cases hv2 : c.extrema_max.value < pt.value
      · simp only [RFC_feed_once]
        rw [filter_eq_BUSY_max c pt hst hv1 hv2]
        by_cases hd : c.hysteresis < value_delta c.extrema_min.value pt.value
        · rw [if_pos hd, if_pos rfl]
          right
          by_cases hcc : c.class_count ≠ 0
          · rw [if_pos hcc, cycle_find_state]
          · rw [if_neg hcc]
            split <;> rfl
        · rw [if_neg hd]
          left
          exact hst
      · simp only [RFC_feed_once]
        rw [filter_eq_BUSY_none c pt hst hv1 hv2]
        left
        exact hst
  · by_cases hsgn : sgn (pt.value - (nth c.residue (c.residue.length - 1)).value) =
        c.internal_slope
    · simp only [RFC_feed_once]
      rw [filter_eq_BI_continue c pt hst hsgn]
      right
      by_cases hne : (nth c.residue (c.residue.length - 1)).value ≠ pt.value
      · rw [if_pos hne]
        exact hst
      · rw [if_neg hne]
        exact hst
    · simp only [RFC_feed_once]
      rw [filter_eq_BI_reversal c pt hst hsgn]
      right
      by_cases hd : c.hysteresis <
          value_delta (nth c.residue (c.residue.length - 1)).value pt.value
      · rw [if_pos hd, if_pos rfl]
        by_cases hcc : c.class_count ≠ 0
        · rw [if_pos hcc, cycle_find_state]
          exact hst
        · rw [if_neg hcc]
          split <;> exact hst
      · rw [if_neg hd]
        exact hst

theorem RFC_feed_step_state (c : Ctx) (v : ℚ)
    (hs : c.state = .INIT ∨ c.state = .BUSY ∨ c.state = .BUSY_INTERIM) :
    (RFC_feed_step c v).state = .BUSY ∨ (RFC_feed_step c v).state = .BUSY_INTERIM :=
  RFC_feed_once_state _ _ _ hs

theorem feed_fold_state (data : List ℚ) : ∀ c : Ctx,
    (c.state = .INIT ∨ c.state = .BUSY ∨ c.state = .BUSY_INTERIM) →
    ((data.foldl RFC_feed_step c).state = .INIT ∨
     (data.foldl RFC_feed_step c).state = .BUSY ∨
     (data.foldl RFC_feed_step c).state = .BUSY_INTERIM) := by
  induction data with
  | nil => intro c hs; exact hs
  | cons x xs ih =>
      intro c hs
      exact ih (RFC_feed_step c x) (Or.inr (RFC_feed_step_state c x hs))

theorem feed_fold_inv (data : List ℚ) : ∀ c : Ctx,
    (c.state = .INIT ∨ c.state = .BUSY ∨ c.state = .BUSY_INTERIM) → Inv c →
    Inv (data.foldl RFC_feed_step c) := by
  induction data with
  | nil => intro c hs hI; exact hI
  | cons x xs ih =>
      intro c hs hI
      have h1 := feed_step_inv c x hs hI
      exact ih (RFC_feed_step c x) (Or.inr h1.2) h1.1

theorem RFC_feed_accepts (c : Ctx) (data : List ℚ)
    (hs : c.state = .INIT ∨ c.state = .BUSY ∨ c.state = .BUSY_INTERIM) :
    RFC_feed c data = (true, data.foldl RFC_feed_step c) := by
  rw [RFC_feed, if_neg (by rcases hs with h | h | h <;> rw [h] <;> decide)]

/-! ### Branch equations for `RFC_cycle_process_counts` -/

theorem process_eq_diag (c : Ctx) (a b : Tp) (flags : RFCFlags)
    (he : (if c.class_count ≤ QUANTIZE c a.value then c.class_count - 1
            else QUANTIZE c a.value) =
          (if c.class_count ≤ QUANTIZE c b.value then c.class_count - 1
            else QUANTIZE c b.value)) :
    RFC_cycle_process_counts c a b flags = c := by
  unfold RFC_cycle_process_counts
  dsimp only
  rw [if_neg (not_not_intro he)]

theorem process_pseudo_damage (c : Ctx) (a b : Tp) (flags : RFCFlags)
    (hne : (if c.class_count ≤ QUANTIZE c a.value then c.class_count - 1
            else QUANTIZE c a.value) ≠
           (if c.class_count ≤ QUANTIZE c b.value then c.class_count - 1
            else QUANTIZE c b.value))
    (hd : flags.count_damage = true) :
    (RFC_cycle_process_counts c a b flags).pseudo_damage =
      c.pseudo_damage +
        RFC_damage_calc c
          (if c.class_count ≤ QUANTIZE c a.value then c.class_count - 1
            else QUANTIZE c a.value)
          (if c.class_count ≤ QUANTIZE c b.value then c.class_count - 1
            else QUANTIZE c b.value) / (c.full_inc : ℚ) * (c.curr_inc : ℚ) := by
  unfold RFC_cycle_process_counts
  dsimp only
  rw [if_pos hne, if_pos hd]
  split
  · split <;> rfl
  · rfl

theorem process_pseudo_damage_off (c : Ctx) (a b : Tp) (flags : RFCFlags)
    (hd : flags.count_damage = false) :
    (RFC_cycle_process_counts c a b flags).pseudo_damage = c.pseudo_damage := by
  rcases hr : flags.count_rfm <;> rcases hm : c.rfm with _ | m <;>
    simp [RFC_cycle_process_counts, hd, hr, hm] <;> (repeat' split) <;> rfl

theorem process_rfm (c : Ctx) (a b : Tp) (flags : RFCFlags) (m : List ℕ)
    (hne : (if c.class_count ≤ QUANTIZE c a.value then c.class_count - 1
            else QUANTIZE c a.value) ≠
           (if c.class_count ≤ QUANTIZE c b.value then c.class_count - 1
            else QUANTIZE c b.value))
    (hr : flags.count_rfm = true) (hm : c.rfm = some m) :
    (RFC_cycle_process_counts c a b flags).rfm =
      some (m.set
        (c.class_count *
          (if c.class_count ≤ QUANTIZE c a.value then c.class_count - 1
            else QUANTIZE c a.value) +
          (if c.class_count ≤ QUANTIZE c b.value then c.class_count - 1
            else QUANTIZE c b.value))
        (m.getD
          (c.class_count *
            (if c.class_count ≤ QUANTIZE c a.value then c.class_count - 1
              else QUANTIZE c a.value) +
            (if c.class_count ≤ QUANTIZE c b.value then c.class_count - 1
              else QUANTIZE c b.value)) 0 + c.curr_inc)) := by
  unfold RFC_cycle_process_counts
  dsimp only
  rw [if_pos hne, hm]
  dsimp only
  rw [if_pos hr]

theorem process_rfm_none (c : Ctx) (a b : Tp) (flags : RFCFlags) (hm : c.rfm = none) :
    (RFC_cycle_process_counts c a b flags).rfm = none := by
  rcases hd : flags.count_damage <;> rcases hr : flags.count_rfm <;>
    simp [RFC_cycle_process_counts, hd, hr, hm] <;> (repeat' split) <;>
      first | rfl | exact hm

theorem process_class_count (c : Ctx) (a b : Tp) (flags : RFCFlags) :
    (RFC_cycle_process_counts c a b flags).class_count = c.class_count := by
  obtain ⟨d, m, hs⟩ := RFC_cycle_process_counts_shape c a b flags
  rw [hs]

/-! ### The matrix diagonal stays zero -/

theorem getD_set_ne (l : List ℕ) (i j x : ℕ) (hij : i ≠ j) :
    (l.set i x).getD j 0 = l.getD j 0 := by
  induction l generalizing i j with
  | nil => rfl
  | cons hd tl ihl =>
      cases i with
      | zero =>
          cases j with
          | zero => exact absurd rfl hij
          | succ j2 => rfl
      | succ i2 =>
          cases j with
          | zero => rfl
          | succ j2 => exact ihl i2 j2 (by omega)

theorem rfm_index_ne (cc cf ct i : ℕ) (hct : ct < cc) (hi : i < cc) (hne : cf ≠ ct) :
    cc * cf + ct ≠ cc * i + i := by
  intro he
  rcases Nat.lt_trichotomy cf i with hlt | heq | hgt
  · have step : cc * (cf + 1) ≤ cc * i := Nat.mul_le_mul_left cc (by omega)
    have expand : cc * (cf + 1) = cc * cf + cc := by ring
    omega
  · subst heq
    omega
  · have step : cc * (i + 1) ≤ cc * cf := Nat.mul_le_mul_left cc (by omega)
    have expand : cc * (i + 1) = cc * i + cc := by ring
    omega

/-- Every diagonal entry of the rainflow matrix (when allocated) is zero. -/
def diagZero (c : Ctx) : Prop :=
  ∀ m, c.rfm = some m → ∀ i < c.class_count, m.getD (i * c.class_count + i) 0 = 0

theorem process_counts_diagZero (c : Ctx) (a b : Tp) (flags : RFCFlags)
    (h : diagZero c) : diagZero (RFC_cycle_process_counts c a b flags) := by
  by_cases hne : (if c.class_count ≤ QUANTIZE c a.value then c.class_count - 1
      else QUANTIZE c a.value) ≠
      (if c.class_count ≤ QUANTIZE c b.value then c.class_count - 1
      else QUANTIZE c b.value)
  · rcases hm : c.rfm with _ | m0
    · intro m hm2 i hi
      rw [process_rfm_none c a b flags hm] at hm2
      exact absurd hm2 (by simp)
    · by_cases hr : flags.count_rfm = true
      · intro m hm2 i hi
        rw [process_class_count c a b flags] at hi ⊢
        rw [process_rfm c a b flags m0 hne hr hm] at hm2
        have hm2' := Option.some.inj hm2
        subst hm2'
        have hcc : 0 < c.class_count := by
          by_contra hc0
          have h0 : c.class_count = 0 := by omega
          apply hne
          rw [h0]
          simp
        have hct : (if c.class_count ≤ QUANTIZE c b.value then c.class_count - 1
            else QUANTIZE c b.value) < c.class_count := by
          split <;> omega
        rw [getD_set_ne]
        · exact h m0 hm i hi
        · rw [show i * c.class_count + i = c.class_count * i + i by ring]
          exact rfm_index_ne c.class_count _ _ i hct hi hne
      · have hrf : flags.count_rfm = false := by simpa using hr
        intro m hm2 i hi
        rw [process_class_count c a b flags] at hi ⊢
        have hrfm : (RFC_cycle_process_counts c a b flags).rfm = c.rfm := by
          unfold RFC_cycle_process_counts
          dsimp only
          rw [if_pos hne, hm]
          dsimp only
          rw [if_neg (by rw [hrf]; simp)]
          split <;> first | rfl | exact hm
        rw [hrfm] at hm2
        exact h m hm2 i hi
  · rw [process_eq_diag c a b flags (not_not.mp hne)]
    exact h

/-! ### Field preservation by the turning-point filter and residue removal -/

theorem filter_pt_shape (c : Ctx) (pt : Tp) : ∃ e1 e2 st sl r b,
    RFC_feed_filter_pt c pt =
      ({c with extrema_min := e1, extrema_max := e2, state := st,
               internal_slope := sl, residue := r}, b) := by
  simp only [RFC_feed_filter_pt]
  (repeat' split) <;> exact ⟨_, _, _, _, _, _, rfl⟩

theorem filter_pt_params (c : Ctx) (pt : Tp) :
    (RFC_feed_filter_pt c pt).1.params = c.params := by
  obtain ⟨e1, e2, st, sl, r, b, hs⟩ := filter_pt_shape c pt
  rw [hs]
  rfl

theorem filter_pt_rfm (c : Ctx) (pt : Tp) :
    (RFC_feed_filter_pt c pt).1.rfm = c.rfm := by
  obtain ⟨e1, e2, st, sl, r, b, hs⟩ := filter_pt_shape c pt
  rw [hs]

theorem filter_pt_damage (c : Ctx) (pt : Tp) :
    (RFC_feed_filter_pt c pt).1.pseudo_damage = c.pseudo_damage := by
  obtain ⟨e1, e2, st, sl, r, b, hs⟩ := filter_pt_shape c pt
  rw [hs]

theorem filter_pt_class_count (c : Ctx) (pt : Tp) :
    (RFC_feed_filter_pt c pt).1.class_count = c.class_count := by
  obtain ⟨e1, e2, st, sl, r, b, hs⟩ := filter_pt_shape c pt
  rw [hs]

theorem remove_item_rfm (c : Ctx) (i n : ℕ) :
    (RFC_residue_remove_item c i n).rfm = c.rfm := rfl

theorem remove_item_damage (c : Ctx) (i n : ℕ) :
    (RFC_residue_remove_item c i n).pseudo_damage = c.pseudo_damage := rfl

theorem remove_item_class_count (c : Ctx) (i n : ℕ) :
    (RFC_residue_remove_item c i n).class_count = c.class_count := rfl

theorem remove_item_params (c : Ctx) (i n : ℕ) :
    (RFC_residue_remove_item c i n).params = c.params := rfl

theorem cycleStep_rfm (c : Ctx) (flags : RFCFlags) :
    (cycleStep c flags).rfm =
      (RFC_cycle_process_counts c (nth c.residue (c.residue_cnt - 4 + 1))
        (nth c.residue (c.residue_cnt - 4 + 2)) flags).rfm := rfl

theorem cycleStep_damage (c : Ctx) (flags : RFCFlags) :
    (cycleStep c flags).pseudo_damage =
      (RFC_cycle_process_counts c (nth c.residue (c.residue_cnt - 4 + 1))
        (nth c.residue (c.residue_cnt - 4 + 2)) flags).pseudo_damage := rfl

theorem cycleStep_class_count (c : Ctx) (flags : RFCFlags) :
    (cycleStep c flags).class_count = c.class_count :=
  class_count_of_params (cycleStep_params c flags)

/-! ### `diagZero` is preserved by the whole feeding pipeline -/

theorem diagZero_of_eq {a b : Ctx} (hr : a.rfm = b.rfm)
    (hc : a.class_count = b.class_count) (h : diagZero b) : diagZero a := by
  intro m hm i hi
  rw [hc]
  exact h m (by rw [← hr]; exact hm) i (by rw [← hc]; exact hi)

theorem cycleStep_diagZero (c : Ctx) (flags : RFCFlags) (h : diagZero c) :
    diagZero (cycleStep c flags) :=
  diagZero_of_eq (cycleStep_rfm c flags)
    (by rw [cycleStep_class_count,
            ← process_class_count c (nth c.residue (c.residue_cnt - 4 + 1))
              (nth c.residue (c.residue_cnt - 4 + 2)) flags])
    (process_counts_diagZero c _ _ flags h)

theorem cycle_find_diagZero (c : Ctx) (flags : RFCFlags) (h : diagZero c) :
    diagZero (RFC_cycle_find_4ptm c flags) :=
  cycle_find_rec flags diagZero (fun x _ _ hx => cycleStep_diagZero x flags hx) c h

theorem feed_once_diagZero (c : Ctx) (pt : Tp) (flags : RFCFlags) (h : diagZero c) :
    diagZero (RFC_feed_once c pt flags) := by
  have hf : diagZero (RFC_feed_filter_pt c pt).1 :=
    diagZero_of_eq (filter_pt_rfm c pt) (filter_pt_class_count c pt) h
  simp only [RFC_feed_once]
  split
  · split
    · exact cycle_find_diagZero _ _ hf
    · split
      · exact diagZero_of_eq rfl rfl hf
      · exact hf
  · exact hf

theorem feed_step_diagZero (c : Ctx) (v : ℚ) (h : diagZero c) :
    diagZero (RFC_feed_step c v) :=
  feed_once_diagZero _ _ _ (diagZero_of_eq rfl rfl h)

theorem feed_fold_diagZero (data : List ℚ) : ∀ c : Ctx, diagZero c →
    diagZero (data.foldl RFC_feed_step c) := by
  induction data with
  | nil => intro c h; exact h
  | cons x xs ih => intro c h; exact ih (RFC_feed_step c x) (feed_step_diagZero c x h)

theorem feed_diagZero (c : Ctx) (data : List ℚ) (h : diagZero c) :
    diagZero (RFC_feed c data).2 := by
  rw [RFC_feed]
  split
  · exact h
  · exact feed_fold_diagZero data c h

/-! ### Branch equations for `RFC_feed_finalize` and `RFC_finalize` -/

theorem feed_finalize_of_BI (c : Ctx) (hbi : c.state = .BUSY_INTERIM) :
    RFC_feed_finalize c =
      {RFC_cycle_find_4ptm {c with state := .BUSY} c.internal_flags with
        state := .FINALIZE} := by
  simp only [RFC_feed_finalize]
  rw [if_pos (by rw [hbi]; decide), if_pos hbi]
  rfl

theorem feed_finalize_of_not_BI (c : Ctx) (hlt : c.state.idx < RFCState.FINALIZE.idx)
    (hbi : c.state ≠ .BUSY_INTERIM) :
    RFC_feed_finalize c = {c with state := .FINALIZE} := by
  simp only [RFC_feed_finalize]
  rw [if_pos hlt, if_neg hbi]
  rfl

theorem feed_finalize_of_late (c : Ctx) (hge : ¬ c.state.idx < RFCState.FINALIZE.idx) :
    RFC_feed_finalize c = c := by
  simp only [RFC_feed_finalize]
  rw [if_neg hge]

theorem finalize_ignore_eq (c : Ctx) (m : ResidualMethod)
    (hm : m = .NONE ∨ m = .IGNORE)
    (hs : ¬ (c.state.idx < RFCState.INIT.idx ∨ RFCState.FINISHED.idx ≤ c.state.idx)) :
    RFC_finalize c m =
      (true, {(if (RFC_feed_finalize c).class_count = 0
               then {RFC_feed_finalize c with residue := []}
               else RFC_feed_finalize c) with state := .FINISHED}) := by
  rcases hm with h | h <;> subst h <;>
    simp only [RFC_finalize, RFC_finalize_res_ignore] <;> rw [if_neg hs] <;> rfl

theorem finalize_other_eq (c : Ctx)
    (hs : ¬ (c.state.idx < RFCState.INIT.idx ∨ RFCState.FINISHED.idx ≤ c.state.idx)) :
    RFC_finalize c .OTHER =
      (false, {(if c.class_count = 0
               then {({c with error := .INVARG} : Ctx) with residue := []}
               else {c with error := .INVARG}) with state := .ERROR}) := by
  simp only [RFC_finalize]
  rw [if_neg hs]
  rfl

theorem finalize_rejected (c : Ctx)
    (hs : c.state.idx < RFCState.INIT.idx ∨ RFCState.FINISHED.idx ≤ c.state.idx)
    (m : ResidualMethod) : RFC_finalize c m = (false, c) := by
  simp only [RFC_finalize]
  rw [if_pos hs]

theorem feed_rejected (c : Ctx) (data : List ℚ)
    (hs : c.state.idx < RFCState.INIT.idx ∨ RFCState.FINISHED.idx ≤ c.state.idx) :
    RFC_feed c data = (false, c) := by
  rw [RFC_feed, if_pos hs]

/-! ### The Wöhler damage formula: logarithmic form vs closed form (claim C3) -/

/-- The C source computes `D(Sa) = exp(|k|·(ln Sa − ln SD) − ln ND)`; for
positive arguments this equals the closed form `(Sa/SD)^|k| / ND` used by
`RFC_damage_calc_amplitude`. -/
theorem damage_log_form_eq_pow_form (Sa SD ND : ℝ) (k : ℕ)
    (hSa : 0 < Sa) (hSD : 0 < SD) (hND : 0 < ND) :
    Real.exp ((k : ℝ) * (Real.log Sa - Real.log SD) - Real.log ND) =
      (Sa / SD) ^ k / ND := by
  have hq : (0 : ℝ) < Sa / SD := div_pos hSa hSD
  rw [Real.exp_sub, Real.exp_log hND, ← Real.log_div hSa.ne' hSD.ne',
      ← Real.log_pow, Real.exp_log (pow_pos hq k)]

/-! ### Damage nonnegativity and monotonicity (claim C9) -/

/-- Sign facts about the Wöhler parameters under which the damage formula is
nonnegative.  `RFC_init` installs `SD = 1000 ≥ 0` and `ND = 10^7 ≥ 0`; a
zero-initialized context has `SD = ND = 0`, also fine. -/
def wlOk (c : Ctx) : Prop := 0 ≤ c.wl_sd ∧ 0 ≤ c.wl_nd

theorem wlOk_of_params {a b : Ctx} (h : a.params = b.params) (hb : wlOk b) :
    wlOk a :=
  ⟨by rw [wl_sd_of_params h]; exact hb.1, by rw [wl_nd_of_params h]; exact hb.2⟩

theorem damage_calc_amplitude_nonneg (c : Ctx) (Sa : ℚ) (h : wlOk c) :
    0 ≤ RFC_damage_calc_amplitude c Sa := by
  unfold RFC_damage_calc_amplitude
  by_cases hSa : 0 ≤ Sa
  · rw [if_pos hSa]
    exact div_nonneg (pow_nonneg (div_nonneg hSa h.1) _) h.2
  · rw [if_neg hSa]

theorem damage_calc_nonneg (c : Ctx) (cf ct : ℕ) (h : wlOk c) :
    0 ≤ RFC_damage_calc c cf ct := by
  unfold RFC_damage_calc
  by_cases hne : cf ≠ ct
  · rw [if_pos hne]
    exact damage_calc_amplitude_nonneg c _ h
  · rw [if_neg hne]

theorem process_damage_le (c : Ctx) (a b : Tp) (flags : RFCFlags) (h : wlOk c) :
    c.pseudo_damage ≤ (RFC_cycle_process_counts c a b flags).pseudo_damage := by
  by_cases hne : (if c.class_count ≤ QUANTIZE c a.value then c.class_count - 1
      else QUANTIZE c a.value) ≠
      (if c.class_count ≤ QUANTIZE c b.value then c.class_count - 1
      else QUANTIZE c b.value)
  · by_cases hd : flags.count_damage = true
    · rw [process_pseudo_damage c a b flags hne hd]
      exact le_add_of_nonneg_right
        (mul_nonneg (div_nonneg (damage_calc_nonneg c _ _ h) (Nat.cast_nonneg _))
          (Nat.cast_nonneg _))
    · rw [process_pseudo_damage_off c a b flags (by simpa using hd)]
  · rw [process_eq_diag c a b flags (not_not.mp hne)]

theorem cycleStep_damage_le (c : Ctx) (flags : RFCFlags) (h : wlOk c) :
    c.pseudo_damage ≤ (cycleStep c flags).pseudo_damage := by
  rw [cycleStep_damage]
  exact process_damage_le c _ _ flags h

theorem cycle_find_damage_le (c : Ctx) (flags : RFCFlags) (h : wlOk c) :
    c.pseudo_damage ≤ (RFC_cycle_find_4ptm c flags).pseudo_damage :=
  (cycle_find_rec flags (fun x => wlOk x ∧ c.pseudo_damage ≤ x.pseudo_damage)
    (fun x _ _ hx => ⟨wlOk_of_params (cycleStep_params x flags) hx.1,
      le_trans hx.2 (cycleStep_damage_le x flags hx.1)⟩) c ⟨h, le_refl _⟩).2

theorem feed_once_params (c : Ctx) (pt : Tp) (flags : RFCFlags) :
    (RFC_feed_once c pt flags).params = c.params := by
  have hp := filter_pt_params c pt
  simp only [RFC_feed_once]
  split
  · split
    · rw [cycle_find_params]; exact hp
    · split
      · rw [remove_item_params]; exact hp
      · exact hp
  · exact hp

theorem feed_once_damage_le (c : Ctx) (pt : Tp) (flags : RFCFlags) (h : wlOk c) :
    c.pseudo_damage ≤ (RFC_feed_once c pt flags).pseudo_damage := by
  have hfd : (RFC_feed_filter_pt c pt).1.pseudo_damage = c.pseudo_damage :=
    filter_pt_damage c pt
  have hfw : wlOk (RFC_feed_filter_pt c pt).1 :=
    wlOk_of_params (filter_pt_params c pt) h
  simp only [RFC_feed_once]
  split
  · split
    · rw [← hfd]; exact cycle_find_damage_le _ flags hfw
    · split
      · rw [remove_item_damage, hfd]
      · rw [hfd]
  · rw [hfd]

theorem feed_step_params (c : Ctx) (v : ℚ) :
    (RFC_feed_step c v).params = c.params := by
  unfold RFC_feed_step
  exact feed_once_params _ _ _

theorem feed_step_damage_le (c : Ctx) (v : ℚ) (h : wlOk c) :
    c.pseudo_damage ≤ (RFC_feed_step c v).pseudo_damage :=
  feed_once_damage_le _ _ _ ⟨h.1, h.2⟩

theorem feed_fold_damage_le (data : List ℚ) : ∀ c : Ctx, wlOk c →
    c.pseudo_damage ≤ (data.foldl RFC_feed_step c).pseudo_damage ∧
    wlOk (data.foldl RFC_feed_step c) := by
  induction data with
  | nil => intro c h; exact ⟨le_refl _, h⟩
  | cons x xs ih =>
      intro c h
      have hw : wlOk (RFC_feed_step c x) := wlOk_of_params (feed_step_params c x) h
      obtain ⟨h1, h2⟩ := ih (RFC_feed_step c x) hw
      exact ⟨le_trans (feed_step_damage_le c x h) h1, h2⟩

theorem feed_damage_le (c : Ctx) (data : List ℚ) (h : wlOk c) :
    c.pseudo_damage ≤ (RFC_feed c data).2.pseudo_damage ∧
    wlOk (RFC_feed c data).2 := by
  rw [RFC_feed]
  split
  · exact ⟨le_refl _, h⟩
  · exact feed_fold_damage_le data c h

theorem feed_finalize_damage_le (c : Ctx) (h : wlOk c) :
    c.pseudo_damage ≤ (RFC_feed_finalize c).pseudo_damage ∧
    wlOk (RFC_feed_finalize c) := by
  by_cases hlt : c.state.idx < RFCState.FINALIZE.idx
  · by_cases hbi : c.state = .BUSY_INTERIM
    · rw [feed_finalize_of_BI c hbi]
      have hw : wlOk ({c with state := RFCState.BUSY}) := ⟨h.1, h.2⟩
      have h1 := cycle_find_damage_le {c with state := RFCState.BUSY}
        c.internal_flags hw
      have h2 : wlOk (RFC_cycle_find_4ptm {c with state := RFCState.BUSY}
          c.internal_flags) :=
        wlOk_of_params (cycle_find_params _ _) hw
      exact ⟨h1, h2.1, h2.2⟩
    · rw [feed_finalize_of_not_BI c hlt hbi]
      exact ⟨le_refl _, h.1, h.2⟩
  · rw [feed_finalize_of_late c hlt]
    exact ⟨le_refl _, h⟩

theorem finalize_damage_le (c : Ctx) (m : ResidualMethod) (h : wlOk c) :
    c.pseudo_damage ≤ (RFC_finalize c m).2.pseudo_damage ∧
    wlOk (RFC_finalize c m).2 := by
  by_cases hs : c.state.idx < RFCState.INIT.idx ∨ RFCState.FINISHED.idx ≤ c.state.idx
  · rw [finalize_rejected c hs m]
    exact ⟨le_refl _, h⟩
  · rcases m with _ | _ | _
    · rw [finalize_ignore_eq c .NONE (Or.inl rfl) hs]
      obtain ⟨h1, h2⟩ := feed_finalize_damage_le c h
      by_cases hcc : (RFC_feed_finalize c).class_count = 0
      · rw [if_pos hcc]; exact ⟨h1, h2.1, h2.2⟩
      · rw [if_neg hcc]; exact ⟨h1, h2.1, h2.2⟩
    · rw [finalize_ignore_eq c .IGNORE (Or.inr rfl) hs]
      obtain ⟨h1, h2⟩ := feed_finalize_damage_le c h
      by_cases hcc : (RFC_feed_finalize c).class_count = 0
      · rw [if_pos hcc]; exact ⟨h1, h2.1, h2.2⟩
      · rw [if_neg hcc]; exact ⟨h1, h2.1, h2.2⟩
    · rw [finalize_other_eq c hs]
      by_cases hcc : c.class_count = 0
      · rw [if_pos hcc]; exact ⟨le_refl _, h.1, h.2⟩
      · rw [if_neg hcc]; exact ⟨le_refl _, h.1, h.2⟩

/-! ### Residue ordering after finalize (claim C4) -/

theorem altOk_nil (h : ℚ) : altOk h [] := by
  intro i hi
  simp at hi

theorem altDir_nil : altDir [] := by
  intro i hi
  simp at hi

theorem posIncr_nil : posIncr [] := by
  intro i hi
  simp at hi

theorem feed_finalize_ord (c : Ctx)
    (hs : c.state = .INIT ∨ c.state = .BUSY ∨ c.state = .BUSY_INTERIM)
    (hI : Inv c) :
    altOk (RFC_feed_finalize c).hysteresis (RFC_feed_finalize c).residue ∧
    altDir (RFC_feed_finalize c).residue ∧
    posIncr (RFC_feed_finalize c).residue := by
  rcases hs with hst | hst | hst
  · rw [feed_finalize_of_not_BI c (by rw [hst]; decide)
      (by rw [hst]; exact fun h => by exact absurd h (by decide))]
    have hres : c.residue = [] := hI.2.1 hst
    refine ⟨?_, ?_, ?_⟩ <;>
      simp only [show ({c with state := RFCState.FINALIZE} : Ctx).residue = c.residue
        from rfl, hres]
    · exact altOk_nil _
    · exact altDir_nil
    · exact posIncr_nil
  · rw [feed_finalize_of_not_BI c (by rw [hst]; decide)
      (by rw [hst]; exact fun h => by exact absurd h (by decide))]
    have hres : c.residue = [] := (hI.2.2.1 hst).1
    refine ⟨?_, ?_, ?_⟩ <;>
      simp only [show ({c with state := RFCState.FINALIZE} : Ctx).residue = c.residue
        from rfl, hres]
    · exact altOk_nil _
    · exact altDir_nil
    · exact posIncr_nil
  · rw [feed_finalize_of_BI c hst]
    obtain ⟨h1, h2, h3, h4, h5, h6, h7⟩ := hI.2.2.2 hst
    have hR : ResInv {c with state := RFCState.BUSY} := by
      refine ⟨h1, h2, h3, h4, h5, ?_, h7⟩
      intro hab
      exact absurd (show RFCState.BUSY = RFCState.BUSY_INTERIM from hab) (by decide)
    obtain ⟨_, hOk, hDir, hPos, _, _, _⟩ :=
      cycle_find_resInv c.internal_flags _ hR
    exact ⟨hOk, hDir, hPos⟩

theorem finalize_ord (c : Ctx) (m : ResidualMethod) (hm : m = .NONE ∨ m = .IGNORE)
    (hs : c.state = .INIT ∨ c.state = .BUSY ∨ c.state = .BUSY_INTERIM)
    (hI : Inv c) :
    altOk (RFC_finalize c m).2.hysteresis (RFC_finalize c m).2.residue ∧
    altDir (RFC_finalize c m).2.residue ∧
    posIncr (RFC_finalize c m).2.residue := by
  have hguard : ¬ (c.state.idx < RFCState.INIT.idx ∨
      RFCState.FINISHED.idx ≤ c.state.idx) := by
    rcases hs with h | h | h <;> rw [h] <;> decide
  rw [finalize_ignore_eq c m hm hguard]
  obtain ⟨hOk, hDir, hPos⟩ := feed_finalize_ord c hs hI
  by_cases hcc : (RFC_feed_finalize c).class_count = 0
  · rw [if_pos hcc]
    exact ⟨altOk_nil _, altDir_nil, posIncr_nil⟩
  · rw [if_neg hcc]
    exact ⟨hOk, hDir, hPos⟩

/-! ### The detector loop in the form the spec states it (claim C2) -/

/-- The four-point detector exactly as §4.E of the spec words it: while at
least four confirmed points remain, test the closure rule
`min(B,C) ≥ min(A,D) ∧ max(B,C) ≤ max(A,D)` on the last four confirmed
points; when it holds, count `(B, C)` and remove those two points, and stop
the first time it fails. -/
def RFC_cycle_find_4ptm_spec (c : Ctx) (flags : RFCFlags) : Ctx :=
  if h4 : 4 ≤ c.residue_cnt then
    if cycleClosed c then RFC_cycle_find_4ptm_spec (cycleStep c flags) flags
    else c
  else c
termination_by c.residue.length
decreasing_by
  have hle := c.residue_cnt_le_length
  rw [cycleStep_length c flags h4]
  omega

theorem cycle_find_eq_spec : ∀ (c : Ctx) (flags : RFCFlags),
    RFC_cycle_find_4ptm c flags = RFC_cycle_find_4ptm_spec c flags := by
  have main : ∀ (n : ℕ) (c : Ctx) (flags : RFCFlags), c.residue.length ≤ n →
      RFC_cycle_find_4ptm c flags = RFC_cycle_find_4ptm_spec c flags := by
    intro n
    induction n with
    | zero =>
        intro c flags hlen
        have h4 : ¬ 4 ≤ c.residue_cnt := by
          have := c.residue_cnt_le_length
          omega
        rw [cycle_find_of_small c flags h4, RFC_cycle_find_4ptm_spec, dif_neg h4]
    | succ n ih =>
        intro c flags hlen
        by_cases h4 : 4 ≤ c.residue_cnt
        · by_cases hcl : cycleClosed c
          · rw [cycle_find_of_closed c flags h4 hcl,
                RFC_cycle_find_4ptm_spec, dif_pos h4, if_pos hcl]
            refine ih _ flags ?_
            have := cycleStep_length c flags h4
            have := c.residue_cnt_le_length
            omega
          · rw [cycle_find_of_open c flags h4 hcl,
                RFC_cycle_find_4ptm_spec, dif_pos h4, if_neg hcl]
        · rw [cycle_find_of_small c flags h4, RFC_cycle_find_4ptm_spec, dif_neg h4]
  exact fun c flags => main c.residue.length c flags le_rfl

/-! ### Chunked feeding (claim C1) -/

theorem feed_chunked (c : Ctx) (a b : List ℚ)
    (hs : c.state = .INIT ∨ c.state = .BUSY ∨ c.state = .BUSY_INTERIM) :
    (RFC_feed (RFC_feed c a).2 b).2 = (RFC_feed c (a ++ b)).2 := by
  rw [RFC_feed_accepts c a hs]
  dsimp only
  rw [RFC_feed_accepts _ b (feed_fold_state a c hs), RFC_feed_accepts c (a ++ b) hs]
  dsimp only
  rw [List.foldl_append]

theorem feed_chunks (chunks : List (List ℚ)) : ∀ c : Ctx,
    (c.state = .INIT ∨ c.state = .BUSY ∨ c.state = .BUSY_INTERIM) →
    chunks.foldl (fun x ch => (RFC_feed x ch).2) c = (RFC_feed c chunks.flatten).2 := by
  induction chunks with
  | nil =>
      intro c hs
      rw [List.foldl_nil, List.flatten_nil, RFC_feed_accepts c [] hs]
      rfl
  | cons ch rest ih =>
      intro c hs
      rw [List.foldl_cons, List.flatten_cons]
      have hs2 : (RFC_feed c ch).2.state = .INIT ∨ (RFC_feed c ch).2.state = .BUSY ∨
          (RFC_feed c ch).2.state = .BUSY_INTERIM := by
        rw [RFC_feed_accepts c ch hs]
        exact feed_fold_state ch c hs
      rw [ih _ hs2, feed_chunked c ch rest.flatten hs]

/-! ### Branch equations for `RFC_init` (claim C8) -/

theorem init_invalid (c : Ctx) (hc : c.state = .INIT0) (cc : ℕ) (w o hy : ℚ)
    (fl : RFCFlags) (hbad : cc ≠ 0 ∧ (512 < cc ∨ w ≤ 0)) :
    RFC_init c cc w o hy fl =
      (false, {c with internal_flags := fl, full_inc := RFC_FULL_CYCLE_INCREMENT,
                      curr_inc := RFC_FULL_CYCLE_INCREMENT, error := .INVARG}) := by
  simp only [RFC_init]
  rw [if_neg (not_not_intro hc), if_pos hbad]

theorem init_valid (c : Ctx) (hc : c.state = .INIT0) (cc : ℕ) (w o hy : ℚ)
    (fl : RFCFlags) (hok : ¬ (cc ≠ 0 ∧ (512 < cc ∨ w ≤ 0))) :
    (RFC_init c cc w o hy fl).1 = true ∧
    (RFC_init c cc w o hy fl).2.state = .INIT ∧
    (RFC_init c cc w o hy fl).2.error = c.error ∧
    (RFC_init c cc w o hy fl).2.residue = [] ∧
    (RFC_init c cc w o hy fl).2.residue_cap =
      (if 2 * cc ≤ RFC_EMBEDDED_RESIDUE_CAP then RFC_EMBEDDED_RESIDUE_CAP
       else 2 * cc) ∧
    (RFC_init c cc w o hy fl).2.rfm =
      (if cc ≠ 0 ∧ fl.count_rfm then some (List.replicate (cc * cc) 0)
       else c.rfm) ∧
    (RFC_init c cc w o hy fl).2.pseudo_damage = 0 ∧
    (RFC_init c cc w o hy fl).2.hysteresis = hy ∧
    (RFC_init c cc w o hy fl).2.class_count = cc ∧
    (RFC_init c cc w o hy fl).2.class_width = w ∧
    (RFC_init c cc w o hy fl).2.wl_sd = 1000 ∧
    (RFC_init c cc w o hy fl).2.wl_nd = 10000000 ∧
    (RFC_init c cc w o hy fl).2.internal_flags = fl := by
  simp only [RFC_init, RFC_wl_init]
  rw [if_neg (not_not_intro hc), if_neg hok]
  by_cases hr : cc ≠ 0 ∧ fl.count_rfm
  · rw [if_pos hr, if_pos hr]
    exact ⟨rfl, rfl, rfl, rfl, rfl, rfl, rfl, rfl, rfl, rfl, rfl, rfl, rfl⟩
  · rw [if_neg hr, if_neg hr]
    exact ⟨rfl, rfl, rfl, rfl, rfl, rfl, rfl, rfl, rfl, rfl, rfl, rfl, rfl⟩

/-! ### Parameter preservation by `RFC_feed_finalize` (claim C7) -/

theorem feed_finalize_params (c : Ctx) :
    (RFC_feed_finalize c).params = c.params := by
  by_cases hlt : c.state.idx < RFCState.FINALIZE.idx
  · by_cases hbi : c.state = .BUSY_INTERIM
    · rw [feed_finalize_of_BI c hbi]
      rw [show ({RFC_cycle_find_4ptm {c with state := RFCState.BUSY} c.internal_flags
          with state := RFCState.FINALIZE} : Ctx).params =
          (RFC_cycle_find_4ptm {c with state := RFCState.BUSY}
            c.internal_flags).params from rfl,
        cycle_find_params]
      rfl
    · rw [feed_finalize_of_not_BI c hlt hbi]
      rfl
  · rw [feed_finalize_of_late c hlt]
/-! ### `diagZero` at initialization and finalization (claim C3) -/

theorem getD_replicate_zero (n j : ℕ) : (List.replicate n (0 : ℕ)).getD j 0 = 0 := by
  induction n generalizing j with
  | zero => rfl
  | succ n ih =>
      cases j with
      | zero => rfl
      | succ j2 => exact ih j2

theorem init_diagZero (c : Ctx) (cc : ℕ) (w o hy : ℚ) (fl : RFCFlags)
    (hnone : c.rfm = none) : diagZero (RFC_init c cc w o hy fl).2 := by
  simp only [RFC_init, RFC_wl_init]
  by_cases h0 : c.state ≠ .INIT0
  · rw [if_pos h0]
    intro m hm i hi
    rw [hnone] at hm
    exact absurd hm (by simp)
  · rw [if_neg h0]
    by_cases hbad : cc ≠ 0 ∧ (512 < cc ∨ w ≤ 0)
    · rw [if_pos hbad]
      intro m hm i hi
      have hm2 : c.rfm = some m := hm
      rw [hnone] at hm2
      exact absurd hm2 (by simp)
    · rw [if_neg hbad]
      by_cases hr : cc ≠ 0 ∧ fl.count_rfm
      · rw [if_pos hr]
        intro m hm i hi
        have hm2 : m = List.replicate (cc * cc) 0 :=
          (Option.some.inj hm).symm
        rw [hm2, getD_replicate_zero]
      · rw [if_neg hr]
        intro m hm i hi
        rw [show c.rfm = none from hnone] at hm
        exact absurd hm (by simp)

theorem feed_finalize_diagZero (c : Ctx) (h : diagZero c) :
    diagZero (RFC_feed_finalize c) := by
  by_cases hlt : c.state.idx < RFCState.FINALIZE.idx
  · by_cases hbi : c.state = .BUSY_INTERIM
    · rw [feed_finalize_of_BI c hbi]
      exact diagZero_of_eq rfl rfl
        (cycle_find_diagZero _ _ (diagZero_of_eq rfl rfl h))
    · rw [feed_finalize_of_not_BI c hlt hbi]
      exact diagZero_of_eq rfl rfl h
  · rw [feed_finalize_of_late c hlt]
    exact h

theorem finalize_diagZero (c : Ctx) (m : ResidualMethod) (h : diagZero c) :
    diagZero (RFC_finalize c m).2 := by
  by_cases hs : c.state.idx < RFCState.INIT.idx ∨ RFCState.FINISHED.idx ≤ c.state.idx
  · rw [finalize_rejected c hs m]
    exact h
  · rcases m with _ | _ | _
    · rw [finalize_ignore_eq c .NONE (Or.inl rfl) hs]
      by_cases hcc : (RFC_feed_finalize c).class_count = 0
      · rw [if_pos hcc]
        exact diagZero_of_eq rfl rfl (feed_finalize_diagZero c h)
      · rw [if_neg hcc]
        exact diagZero_of_eq rfl rfl (feed_finalize_diagZero c h)
    · rw [finalize_ignore_eq c .IGNORE (Or.inr rfl) hs]
      by_cases hcc : (RFC_feed_finalize c).class_count = 0
      · rw [if_pos hcc]
        exact diagZero_of_eq rfl rfl (feed_finalize_diagZero c h)
      · rw [if_neg hcc]
        exact diagZero_of_eq rfl rfl (feed_finalize_diagZero c h)
    · rw [finalize_other_eq c hs]
      by_cases hcc : c.class_count = 0
      · rw [if_pos hcc]
        exact diagZero_of_eq rfl rfl h
      · rw [if_neg hcc]
        exact diagZero_of_eq rfl rfl h

/-! ### The Wöhler parameters `RFC_init` installs (claim C9) -/

theorem init_wl (c : Ctx) (cc : ℕ) (w o hy : ℚ) (fl : RFCFlags) (hw : wlOk c) :
    wlOk (RFC_init c cc w o hy fl).2 ∧
    ((RFC_init c cc w o hy fl).1 = true →
      (RFC_init c cc w o hy fl).2.pseudo_damage = 0) := by
  by_cases h0 : c.state = .INIT0
  · by_cases hbad : cc ≠ 0 ∧ (512 < cc ∨ w ≤ 0)
    · rw [init_invalid c h0 cc w o hy fl hbad]
      exact ⟨⟨hw.1, hw.2⟩, fun ht => nomatch ht⟩
    · obtain ⟨h1, h2, h3, h4, h5, h6, h7, h8, h9, h10, h11, h12, h13⟩ :=
        init_valid c h0 cc w o hy fl hbad
      refine ⟨⟨?_, ?_⟩, fun _ => h7⟩
      · rw [h11]; norm_num
      · rw [h12]; norm_num
  · have heq : RFC_init c cc w o hy fl = (false, c) := by
      simp only [RFC_init]
      rw [if_pos h0]
    rw [heq]
    exact ⟨hw, fun ht => nomatch ht⟩

/-! ### Concrete contexts used by the per-claim results -/

instance (c : Ctx) : Decidable (ResInv c) := by
  unfold ResInv; infer_instance

instance (c : Ctx) : Decidable (Inv c) := by
  unfold Inv; infer_instance

/-- A freshly initialized context with 4 classes of width 1, offset 0 and
hysteresis 0. -/
def sampleCtx : Ctx := (RFC_init Ctx.initial 4 1 0 0 RFC_FLAGS_DEFAULT).2

/-- A context initialized with `class_count = 0` (no counting sinks). -/
def zeroClassCtx : Ctx := (RFC_init Ctx.initial 0 0 0 0 RFC_FLAGS_DEFAULT).2

/-- A 2-class context (residue capacity `2·2 = 4`) fed five in-window samples
whose turning points form strictly widening ranges, so that no 4-point cycle
ever closes: the residue grows to 5 occupied slots, one past the capacity the
C code allocates. -/
def overflowCtx : Ctx :=
  (RFC_feed (RFC_init Ctx.initial 2 1 0 0 RFC_FLAGS_DEFAULT).2
    [1, 11/10, 9/10, 13/10, 7/10]).2

/-- The class setup of test scenario 4 of `rfc_test.c`: 4 classes, width 1,
offset 0.5, hysteresis `0.99·class_width`. -/
def stressCtx : Ctx :=
  (RFC_init Ctx.initial 4 1 (1/2) (99/100) RFC_FLAGS_DEFAULT).2

/-- The 25-sample input of the residue stress test (scenario 4). -/
def stressInput : List ℚ :=
  [2, 3, 1, 4, 1, 3, 2, 3, 2, 3, 1, 4, 1, 3, 2, 3, 2, 3, 1, 4, 1, 3, 2, 3,
   19/10]

/-- The context after feeding the stress input and finalizing with `NONE`. -/
def stressFinal : Ctx :=
  (RFC_finalize (RFC_feed stressCtx stressInput).2 .NONE).2

/-! ### The ten claims -/

/-- Claim C1: feeding is streaming-equivalent.  For a context in a feeding
state, `feed a; feed b` produces the same final context (matrix, damage and
residue included) as `feed (a ++ b)`, and chunk-by-chunk feeding along any
partition equals feeding the concatenated sequence in one call. -/
theorem C1_chunked_feed_equivalence (c : Ctx) (a b : List ℚ)
    (chunks : List (List ℚ))
    (hs : c.state = .INIT ∨ c.state = .BUSY ∨ c.state = .BUSY_INTERIM) :
    (RFC_feed (RFC_feed c a).2 b).2 = (RFC_feed c (a ++ b)).2 ∧
    chunks.foldl (fun x ch => (RFC_feed x ch).2) c =
      (RFC_feed c chunks.flatten).2 :=
  ⟨feed_chunked c a b hs, feed_chunks chunks c hs⟩

/-- Witness for C1 at a concrete initialized context and concrete chunks. -/
theorem C1_witness :
    (sampleCtx.state = .INIT ∨ sampleCtx.state = .BUSY ∨
      sampleCtx.state = .BUSY_INTERIM) ∧
    (RFC_feed (RFC_feed sampleCtx [1, 3]).2 [2]).2 =
      (RFC_feed sampleCtx ([1, 3] ++ [2])).2 :=
  ⟨Or.inl rfl,
   (C1_chunked_feed_equivalence sampleCtx [1, 3] [2] [[1], [2]] (Or.inl rfl)).1⟩

/-- Claim C2: the four-point detector is exactly the loop the spec
describes: while four confirmed points remain it applies the min/max closure
rule `min(B,C) ≥ min(A,D) ∧ max(B,C) ≤ max(A,D)` (ties closed) to the last
four confirmed points, counts `(B, C)` and removes those two points on
closure, and stops at the first failure. -/
theorem C2_detector_spec_loop : ∀ (c : Ctx) (flags : RFCFlags),
    RFC_cycle_find_4ptm c flags = RFC_cycle_find_4ptm_spec c flags :=
  cycle_find_eq_spec

/-- Claim C3: per-cycle counting.  Off the diagonal the damage accumulator
grows by exactly `D(Sa)·curr_inc/full_inc` with `Sa = class_width·|ct−cf|/2`
and the matrix entry `cf·class_count + ct` grows by `curr_inc` when the sink
is enabled; on the diagonal nothing changes, and the matrix diagonal is zero
from initialization through every feed and finalize; the logarithmic damage
form of the C source equals the closed power form. -/
theorem C3_cycle_counting :
    (∀ (c : Ctx) (a b : Tp) (flags : RFCFlags) (cf ct : ℕ),
      cf = (if c.class_count ≤ QUANTIZE c a.value then c.class_count - 1
            else QUANTIZE c a.value) →
      ct = (if c.class_count ≤ QUANTIZE c b.value then c.class_count - 1
            else QUANTIZE c b.value) →
      (cf ≠ ct → flags.count_damage = true →
        (RFC_cycle_process_counts c a b flags).pseudo_damage =
          c.pseudo_damage +
            RFC_damage_calc_amplitude c
              (c.class_width * ((((ct : ℤ) - (cf : ℤ)).natAbs : ℚ)) / 2) /
              (c.full_inc : ℚ) * (c.curr_inc : ℚ)) ∧
      (∀ m2 : List ℕ, cf ≠ ct → flags.count_rfm = true → c.rfm = some m2 →
        (RFC_cycle_process_counts c a b flags).rfm =
          some (m2.set (c.class_count * cf + ct)
            (m2.getD (c.class_count * cf + ct) 0 + c.curr_inc))) ∧
      (cf = ct → RFC_cycle_process_counts c a b flags = c)) ∧
    (∀ (c : Ctx) (cc : ℕ) (w o hy : ℚ) (fl : RFCFlags), c.rfm = none →
      diagZero (RFC_init c cc w o hy fl).2) ∧
    (∀ (c : Ctx) (data : List ℚ), diagZero c → diagZero (RFC_feed c data).2) ∧
    (∀ (c : Ctx) (m : ResidualMethod), diagZero c →
      diagZero (RFC_finalize c m).2) ∧
    (∀ (Sa SD ND : ℝ) (k : ℕ), 0 < Sa → 0 < SD → 0 < ND →
      Real.exp ((k : ℝ) * (Real.log Sa - Real.log SD) - Real.log ND) =
        (Sa / SD) ^ k / ND) := by
  refine ⟨?_, init_diagZero, feed_diagZero, finalize_diagZero,
    damage_log_form_eq_pow_form⟩
  intro c a b flags cf ct hcf hct
  subst hcf
  subst hct
  refine ⟨?_, ?_, ?_⟩
  · intro hne hd
    rw [process_pseudo_damage c a b flags hne hd, RFC_damage_calc, if_pos hne]
  · intro m2 hne hr hm
    exact process_rfm c a b flags m2 hne hr hm
  · intro he
    exact process_eq_diag c a b flags he

/-- Claim C4: the residue ordering invariant.  `Inv` (which in state
`BUSY_INTERIM` contains the full residue package `ResInv`: alternating
directions, all adjacent deltas above the hysteresis, strictly increasing
positions) is preserved by every feed step; in `BUSY_INTERIM` it yields the
three ordering facts for the stored residue including the interim point; the
detector alone preserves `ResInv`; and after `RFC_finalize` with `NONE` or
`IGNORE` the final residue still satisfies all three ordering facts. -/
theorem C4_residue_invariants :
    (∀ (c : Ctx) (v : ℚ),
      (c.state = .INIT ∨ c.state = .BUSY ∨ c.state = .BUSY_INTERIM) → Inv c →
      Inv (RFC_feed_step c v)) ∧
    (∀ c : Ctx, Inv c → c.state = .BUSY_INTERIM →
      2 ≤ c.residue.length ∧ altOk c.hysteresis c.residue ∧
      altDir c.residue ∧ posIncr c.residue) ∧
    (∀ (c : Ctx) (flags : RFCFlags), ResInv c →
      ResInv (RFC_cycle_find_4ptm c flags)) ∧
    (∀ (c : Ctx) (m : ResidualMethod), (m = .NONE ∨ m = .IGNORE) →
      (c.state = .INIT ∨ c.state = .BUSY ∨ c.state = .BUSY_INTERIM) → Inv c →
      altOk (RFC_finalize c m).2.hysteresis (RFC_finalize c m).2.residue ∧
      altDir (RFC_finalize c m).2.residue ∧
      posIncr (RFC_finalize c m).2.residue) := by
  refine ⟨fun c v hs hI => (feed_step_inv c v hs hI).1, ?_,
    fun c flags hR => cycle_find_resInv flags c hR, finalize_ord⟩
  intro c hI hbi
  obtain ⟨h1, h2, h3, h4, _, _, _⟩ := hI.2.2.2 hbi
  exact ⟨h1, h2, h3, h4⟩

/-- Claim C5 (refuted: code bug).  Five in-window samples on a 2-class
context drive the residue to 5 occupied slots while `residue_cap` is
`2·class_count = 4`: the C code's append assertion
`residue_cnt < residue_cap` is violated and the release build writes past
the allocated residue buffer. -/
theorem C5_residue_cap_overflow :
    overflowCtx.residue_cap = 4 ∧
    overflowCtx.residue_cap = 2 * overflowCtx.class_count ∧
    overflowCtx.residue.length = 5 ∧
    (∀ v ∈ ([1, 11/10, 9/10, 13/10, 7/10] : List ℚ), 0 ≤ v ∧ v < 2) := by
  with_unfolding_all decide

/-- Claim C6 (corrected): a failing `RFC_feed` (wrong state) returns false
but stores no error code and leaves the context entirely unchanged, and an
INVARG failure of `RFC_finalize` (invalid residual method) does move the
state to ERROR, not leave it unchanged. -/
theorem C6_error_reporting :
    (∀ (c : Ctx) (data : List ℚ),
      (c.state.idx < RFCState.INIT.idx ∨ RFCState.FINISHED.idx ≤ c.state.idx) →
      RFC_feed c data = (false, c)) ∧
    (∀ c : Ctx,
      ¬ (c.state.idx < RFCState.INIT.idx ∨
         RFCState.FINISHED.idx ≤ c.state.idx) →
      (RFC_finalize c .OTHER).1 = false ∧
      (RFC_finalize c .OTHER).2.error = .INVARG ∧
      (RFC_finalize c .OTHER).2.state = .ERROR) := by
  refine ⟨feed_rejected, ?_⟩
  intro c hs
  rw [finalize_other_eq c hs]
  by_cases hcc : c.class_count = 0
  · rw [if_pos hcc]
    exact ⟨rfl, rfl, rfl⟩
  · rw [if_neg hcc]
    exact ⟨rfl, rfl, rfl⟩

/-- Counterexample for C6: feeding a FINISHED context fails with the error
code still `NOERROR`, so no error code is stored on this failing call. -/
theorem C6_counterexample :
    (RFC_finalize sampleCtx .NONE).2.state = .FINISHED ∧
    (RFC_finalize sampleCtx .NONE).2.error = .NOERROR ∧
    RFC_feed (RFC_finalize sampleCtx .NONE).2 [1] =
      (false, (RFC_finalize sampleCtx .NONE).2) := by
  have hst : (RFC_finalize sampleCtx .NONE).2.state = .FINISHED := by
    with_unfolding_all decide
  exact ⟨hst, by with_unfolding_all decide,
    feed_rejected _ _ (Or.inr (by rw [hst]))⟩

/-- Claim C7 (corrected): finalize with `NONE`/`IGNORE` on a feeding-state
context with `class_count ≠ 0` succeeds, ends in FINISHED, promotes the
interim point (running the detector once more) when `BUSY_INTERIM`, leaves
the residue as `RFC_feed_finalize` leaves it, and rejects further feeds —
but only when `class_count ≠ 0`: with `class_count = 0` the C code clears
the residue instead of leaving it as-is (see the counterexample). -/
theorem C7_finalize_ignore (c : Ctx) (m : ResidualMethod)
    (hm : m = .NONE ∨ m = .IGNORE)
    (hs : c.state = .INIT ∨ c.state = .BUSY ∨ c.state = .BUSY_INTERIM)
    (hcc : c.class_count ≠ 0) (hI : Inv c) :
    (RFC_finalize c m).1 = true ∧
    (RFC_finalize c m).2.state = .FINISHED ∧
    (RFC_finalize c m).2.residue = (RFC_feed_finalize c).residue ∧
    (c.state = .BUSY_INTERIM →
      RFC_feed_finalize c =
        {RFC_cycle_find_4ptm {c with state := .BUSY} c.internal_flags with
          state := .FINALIZE} ∧
      ({c with state := RFCState.BUSY} : Ctx).residue_cnt =
        c.residue_cnt + 1) ∧
    (c.state ≠ .BUSY_INTERIM → (RFC_feed_finalize c).residue = c.residue) ∧
    (∀ data : List ℚ,
      RFC_feed (RFC_finalize c m).2 data = (false, (RFC_finalize c m).2)) := by
  have hguard : ¬ (c.state.idx < RFCState.INIT.idx ∨
      RFCState.FINISHED.idx ≤ c.state.idx) := by
    rcases hs with h | h | h <;> rw [h] <;> decide
  have hccne : ¬ (RFC_feed_finalize c).class_count = 0 := by
    rw [class_count_of_params (feed_finalize_params c)]
    exact hcc
  rw [finalize_ignore_eq c m hm hguard, if_neg hccne]
  refine ⟨rfl, rfl, rfl, ?_, ?_, ?_⟩
  · intro hbi
    refine ⟨feed_finalize_of_BI c hbi, ?_⟩
    have h2 : 2 ≤ c.residue.length := (hI.2.2.2 hbi).1
    unfold Ctx.residue_cnt
    rw [if_neg (fun hab => absurd
        (show RFCState.BUSY = RFCState.BUSY_INTERIM from hab) (by decide)),
      if_pos hbi,
      show ({c with state := RFCState.BUSY} : Ctx).residue = c.residue from rfl]
    omega
  · intro hbi
    have hlt : c.state.idx < RFCState.FINALIZE.idx := by
      rcases hs with h | h | h <;> rw [h] <;> decide
    rw [feed_finalize_of_not_BI c hlt hbi]
  · intro data
    apply feed_rejected
    right
    exact le_refl _

/-- Witness for C7 at a concrete `BUSY_INTERIM` context reached by feeding
two samples. -/
theorem C7_witness :
    ((RFC_feed sampleCtx [1, 3]).2.state = .INIT ∨
     (RFC_feed sampleCtx [1, 3]).2.state = .BUSY ∨
     (RFC_feed sampleCtx [1, 3]).2.state = .BUSY_INTERIM) ∧
    (RFC_feed sampleCtx [1, 3]).2.class_count ≠ 0 ∧
    Inv (RFC_feed sampleCtx [1, 3]).2 ∧
    (RFC_finalize (RFC_feed sampleCtx [1, 3]).2 .NONE).1 = true :=
  ⟨Or.inr (Or.inr (by with_unfolding_all decide)),
   by with_unfolding_all decide,
   by with_unfolding_all decide,
   (C7_finalize_ignore (RFC_feed sampleCtx [1, 3]).2 .NONE (Or.inl rfl)
     (Or.inr (Or.inr (by with_unfolding_all decide)))
     (by with_unfolding_all decide) (by with_unfolding_all decide)).1⟩

/-- Counterexample for C7: with `class_count = 0` the residue (length 2
before finalize, nothing ever closed) is cleared by a successful finalize,
not left as-is. -/
theorem C7_counterexample :
    (RFC_feed zeroClassCtx [0, 1, 0]).2.residue.length = 2 ∧
    (RFC_finalize (RFC_feed zeroClassCtx [0, 1, 0]).2 .NONE).1 = true ∧
    (RFC_finalize (RFC_feed zeroClassCtx [0, 1, 0]).2 .NONE).2.residue = [] := by
  with_unfolding_all decide

/-- Claim C8 (corrected): on a fresh context `RFC_init` fails with INVARG
exactly when `class_count > 512`, or `class_count > 0` and
`class_width ≤ 0`; a negative hysteresis is accepted (see the
counterexample).  On success the state is INIT, the residue is empty with
capacity `max(2·class_count, 3)`, and the matrix is allocated exactly when
`class_count > 0` and the RFM flag is set. -/
theorem C8_init_validation :
    (∀ (c : Ctx) (cc : ℕ) (w o hy : ℚ) (fl : RFCFlags), c.state = .INIT0 →
      cc ≠ 0 ∧ (512 < cc ∨ w ≤ 0) →
      RFC_init c cc w o hy fl =
        (false, {c with internal_flags := fl, full_inc := RFC_FULL_CYCLE_INCREMENT, curr_inc := RFC_FULL_CYCLE_INCREMENT, error := .INVARG})) ∧
    (∀ (c : Ctx) (cc : ℕ) (w o hy : ℚ) (fl : RFCFlags), c.state = .INIT0 →
      ¬ (cc ≠ 0 ∧ (512 < cc ∨ w ≤ 0)) →
      (RFC_init c cc w o hy fl).1 = true ∧
      (RFC_init c cc w o hy fl).2.state = .INIT ∧
      (RFC_init c cc w o hy fl).2.residue = [] ∧
      (RFC_init c cc w o hy fl).2.residue_cap =
        (if 2 * cc ≤ RFC_EMBEDDED_RESIDUE_CAP then RFC_EMBEDDED_RESIDUE_CAP
         else 2 * cc) ∧
      (RFC_init c cc w o hy fl).2.rfm =
        (if cc ≠ 0 ∧ fl.count_rfm then some (List.replicate (cc * cc) 0)
         else c.rfm) ∧
      (RFC_init c cc w o hy fl).2.hysteresis = hy) := by
  constructor
  · exact fun c cc w o hy fl hc hbad => init_invalid c hc cc w o hy fl hbad
  · intro c cc w o hy fl hc hok
    obtain ⟨h1, h2, h3, h4, h5, h6, h7, h8, h9, h10, h11, h12, h13⟩ :=
      init_valid c hc cc w o hy fl hok
    exact ⟨h1, h2, h4, h5, h6, h8⟩

/-- Counterexample for C8: a negative hysteresis is accepted by `RFC_init`
(no INVARG, state INIT), though the claim says it must be rejected. -/
theorem C8_counterexample :
    (RFC_init Ctx.initial 4 1 0 (-1) RFC_FLAGS_DEFAULT).1 = true ∧
    (RFC_init Ctx.initial 4 1 0 (-1) RFC_FLAGS_DEFAULT).2.state = .INIT ∧
    (RFC_init Ctx.initial 4 1 0 (-1) RFC_FLAGS_DEFAULT).2.error = .NOERROR ∧
    (RFC_init Ctx.initial 4 1 0 (-1) RFC_FLAGS_DEFAULT).2.hysteresis < 0 := by
  with_unfolding_all decide

/-- Claim C9: the damage accumulator starts at 0 after a successful init,
and no feed or finalize ever decreases it (`wlOk` records the sign facts
about the Wöhler parameters that init installs and the pipeline preserves);
in particular it stays nonnegative. -/
theorem C9_damage_monotone :
    (∀ (c : Ctx) (cc : ℕ) (w o hy : ℚ) (fl : RFCFlags), wlOk c →
      wlOk (RFC_init c cc w o hy fl).2 ∧
      ((RFC_init c cc w o hy fl).1 = true →
        (RFC_init c cc w o hy fl).2.pseudo_damage = 0)) ∧
    (∀ (c : Ctx) (data : List ℚ), wlOk c →
      c.pseudo_damage ≤ (RFC_feed c data).2.pseudo_damage ∧
      wlOk (RFC_feed c data).2) ∧
    (∀ (c : Ctx) (m : ResidualMethod), wlOk c →
      c.pseudo_damage ≤ (RFC_finalize c m).2.pseudo_damage ∧
      wlOk (RFC_finalize c m).2) ∧
    (∀ (c : Ctx) (data : List ℚ), wlOk c → 0 ≤ c.pseudo_damage →
      0 ≤ (RFC_feed c data).2.pseudo_damage) :=
  ⟨init_wl, feed_damage_le, finalize_damage_le,
   fun c data hw h0 => le_trans h0 (feed_damage_le c data hw).1⟩

set_option maxRecDepth 10000 in
/-- Claim C10: scenario 4 of the test suite, computed through the model:
matrix total 9 cycles with (1,3)=2, (3,2)=5, (4,1)=2 in 1-based classes
((0,2), (2,1), (3,0) 0-based), residue values [2,3,1,4,1,3,1.9] and
positions [1,2,3,20,21,24,25], so residue[3] holds value 4 with pos = 20
though value 4 first appears at input position 4. -/
theorem C10_scenario4 :
    stressFinal.rfm = some [0, 0, 2, 0, 0, 0, 0, 0, 0, 5, 0, 0, 2, 0, 0, 0] ∧
    (stressFinal.rfm.getD []).foldl (fun x y => x + y) 0 =
      9 * stressFinal.full_inc ∧
    (stressFinal.rfm.getD []).getD (0 * 4 + 2) 0 = 2 * stressFinal.full_inc ∧
    (stressFinal.rfm.getD []).getD (2 * 4 + 1) 0 = 5 * stressFinal.full_inc ∧
    (stressFinal.rfm.getD []).getD (3 * 4 + 0) 0 = 2 * stressFinal.full_inc ∧
    stressFinal.residue.map Tp.value = [2, 3, 1, 4, 1, 3, 19/10] ∧
    stressFinal.residue.map Tp.pos = [1, 2, 3, 20, 21, 24, 25] ∧
    (nth stressFinal.residue 3).pos = 20 ∧
    (nth stressFinal.residue 3).value = 4 ∧
    stressInput.indexOf 4 + 1 = 4 := by
  with_unfolding_all decide

end Rainflow
